import Mathlib

/-!
Verification development for the Theia decorations subsystem:
the per-provider decoration cache and aggregator
(packages/core/src/browser/decorations/decorations-service.ts) and the
request-coalescing queue for remote providers
(packages/plugin-ext/src/main/browser/decorations/decorations-main.ts).

The TypeScript code is shallowly embedded: the mutable per-provider
ternary-search-tree cache becomes an association list with explicit state
passing, JavaScript object identity of in-flight request objects becomes a
fresh numeric id, and the asynchronous completion of a fetch becomes an
explicit step function applied to the wrapper state.
-/

namespace TheiaDecorations

/-- A resource path (URI), as the hierarchical key the ternary search tree
splits it into: a list of path segments. -/
abbrev Path := List String

/-- IDecorationData from decorations-protocol.ts: weight, color, letter,
tooltip, bubble.  The optional boolean bubble is collapsed to Bool because
the client code only ever tests its truthiness. -/
structure Decoration where
  weight : Option Nat
  color : Option String
  letterBadge : Option String
  tooltip : Option String
  bubble : Bool
deriving DecidableEq, Repr

/-- The values the wrapper stores in its ternary search tree: a pending
DecorationDataRequest (identified by a fresh id standing for JS object
identity), a present IDecorationData, or the JavaScript value undefined
(stored by keepItem for an empty result). -/
inductive CacheVal where
  | req (id : Nat)
  | deco (d : Decoration)
  | empty
deriving DecidableEq, Repr

/-- Modelled from the spec: the PathPrefixCache (TernarySearchTree from
packages/core/src/common/ternary-search-tree.ts, which is not under src/).
Per section 4.1 of the spec it provides point lookup, point insert (set,
returning the previous value), point delete, clear, and enumeration of the
entries whose key is a strict descendant of a given prefix.  It is embedded
as an association list with unique keys; its operations are generic in the
key so the same model also serves for plain maps. -/
def TernarySearchTree.get [DecidableEq κ] : List (κ × ν) → κ → Option ν
  | [], _ => none
  | e :: rest, k => if e.1 = k then some e.2 else TernarySearchTree.get rest k

/-- Modelled from the spec: PathPrefixCache set; replaces the entry in place
when the key is present (returning the old value) and appends otherwise. -/
def TernarySearchTree.set [DecidableEq κ] : List (κ × ν) → κ → ν → List (κ × ν) × Option ν
  | [], k, v => ([(k, v)], none)
  | e :: rest, k, v =>
      if e.1 = k then ((k, v) :: rest, some e.2)
      else
        let r := TernarySearchTree.set rest k v
        (e :: r.1, r.2)

/-- Modelled from the spec: PathPrefixCache delete; removes the entry for
the key. -/
def TernarySearchTree.delete [DecidableEq κ] : List (κ × ν) → κ → List (κ × ν)
  | [], _ => []
  | e :: rest, k =>
      if e.1 = k then TernarySearchTree.delete rest k
      else e :: TernarySearchTree.delete rest k

/-- The hierarchical is-strict-descendant relation on paths: the prefix is
a proper initial segment of the key. -/
def isStrictDesc (q k : Path) : Bool :=
  k.isPrefixOf q && decide (k.length < q.length)

/-- Modelled from the spec: PathPrefixCache findDescendants (findSuperstr):
the entries whose key is a strict descendant of the prefix.  A node set to
the value undefined still exists in the tree (only delete removes it), so
such entries are enumerated as well. -/
def TernarySearchTree.findSuperstr (c : List (Path × ν)) (k : Path) : List (Path × ν) :=
  c.filter (fun e => isStrictDesc e.1 k)

/-- The cache of one provider wrapper. -/
abbrev Cache := List (Path × CacheVal)

/-- The JavaScript value observed by client code reading the tree at a key:
an absent key and a key stored with the value undefined are both seen as
undefined. -/
inductive JsVal where
  | undefined
  | req (id : Nat)
  | deco (d : Decoration)
deriving DecidableEq, Repr

/-- Reading this.data.get(uri) in the wrapper: collapses an absent entry and
a stored undefined to the same observation. -/
def jsGet (c : Cache) (k : Path) : JsVal :=
  match TernarySearchTree.get c k with
  | none => .undefined
  | some .empty => .undefined
  | some (.req i) => .req i
  | some (.deco d) => .deco d

/-- JavaScript truthiness of a cache read: request objects and decoration
objects are truthy, undefined is falsy. -/
def JsVal.truthy : JsVal → Bool
  | .undefined => false
  | _ => true

/-- The possible shapes of a call to provider.provideDecorations in
decorations-service.ts line 117: a non-thenable result (a decoration object
or undefined) handled synchronously, or a thenable whose value arrives in a
later completion step. -/
inductive ProvideResult where
  | syncDeco (d : Decoration)
  | syncEmpty
  | thenable

/-- State of one DecorationProviderWrapper (decorations-service.ts lines
36-154).  The provider is embedded as the function provide; nextId supplies
a fresh id for each DecorationDataRequest object created on the async path
(standing for JS object identity); cancelled records ids whose
CancellationTokenSource.cancel() was called. -/
structure DecorationProviderWrapper where
  provide : Path → ProvideResult
  data : Cache
  nextId : Nat
  cancelled : List Nat

/-- Output of keepItem and fetchData: the new wrapper state, the uris fired
on the per-resource emitter during the call, and the JS return value. -/
structure FetchOut where
  w : DecorationProviderWrapper
  fired : List Path
  ret : Option Decoration

/-- The wrapper method keepItem (decorations-service.ts lines 145-153):
stores the decoration or undefined, and fires the per-resource uri emitter
when either the stored value or the previous raw slot content is truthy
(the previous content may be a decoration or a pending request object). -/
def keepItem (w : DecorationProviderWrapper) (uri : Path) (data : Option Decoration) :
    FetchOut :=
  let deco : CacheVal := match data with | some d => .deco d | none => .empty
  let r := TernarySearchTree.set w.data uri deco
  let oldTruthy : Bool := match r.2 with
    | some (.deco _) => true
    | some (.req _) => true
    | _ => false
  { w := { w with data := r.1 },
    fired := if data.isSome || oldTruthy then [uri] else [],
    ret := data }

/-- The opening of fetchData (decorations-service.ts lines 110-114): when
the slot holds a pending request, cancel its token and delete the slot. -/
def cancelPending (w : DecorationProviderWrapper) (uri : Path) :
    DecorationProviderWrapper :=
  match jsGet w.data uri with
  | .req id =>
      { w with cancelled := id :: w.cancelled,
               data := TernarySearchTree.delete w.data uri }
  | _ => w

/-- The wrapper method fetchData (decorations-service.ts lines 107-143):
cancels and removes a pending request for the resource if there is one, then
calls the provider; a synchronous result is stored through keepItem, an
asynchronous one installs a fresh pending request in the slot. -/
def fetchData (w : DecorationProviderWrapper) (uri : Path) : FetchOut :=
  let w := cancelPending w uri
  match w.provide uri with
  | .syncEmpty => keepItem w uri none
  | .syncDeco d => keepItem w uri (some d)
  | .thenable =>
      let id := w.nextId
      { w := { w with nextId := id + 1,
                      data := (TernarySearchTree.set w.data uri (.req id)).1 },
        fired := [],
        ret := none }

/-- Resolution of the thenable of request id for uri (the continuation
installed at decorations-service.ts lines 124-127): the result is stored
through keepItem only when the slot still holds this very request object. -/
def completeOk (w : DecorationProviderWrapper) (id : Nat) (uri : Path)
    (data : Option Decoration) : DecorationProviderWrapper × List Path :=
  if jsGet w.data uri = .req id then
    let o := keepItem w uri data
    (o.w, o.fired)
  else (w, [])

/-- A JavaScript error value as inspected by the catch handler. -/
structure JsError where
  isError : Bool
  name : String
  message : String

/-- The cancellation-error test of decorations-service.ts line 129. -/
def isCanceledError (e : JsError) : Bool :=
  e.isError && e.name == "Canceled" && e.message == "Canceled"

/-- Rejection of the thenable of request id for uri (the catch handler at
decorations-service.ts lines 128-132): for a non-cancellation error, if the
slot still holds this request, the slot is deleted; nothing is fired and
nothing is cached. -/
def completeErr (w : DecorationProviderWrapper) (id : Nat) (uri : Path) (e : JsError) :
    DecorationProviderWrapper :=
  if !isCanceledError e && jsGet w.data uri = .req id then
    { w with data := TernarySearchTree.delete w.data uri }
  else w

/-- Output of getOrRetrieve: the new wrapper state, the callback invocations
in order (decoration, isChild), the uris fired during a synchronous fetch,
and whether a fetch was triggered. -/
structure RetrieveOut where
  w : DecorationProviderWrapper
  emits : List (Decoration × Bool)
  fired : List Path
  fetched : Bool

/-- The wrapper method getOrRetrieve (decorations-service.ts lines 77-105):
an undefined read triggers fetchData; a present non-pending item is reported
for the resource itself; with includeChildren the resolved strict-descendant
entries are reported as children. -/
def getOrRetrieve (w : DecorationProviderWrapper) (uri : Path) (includeChildren : Bool) :
    RetrieveOut :=
  let item0 := jsGet w.data uri
  let step : DecorationProviderWrapper × List Path × JsVal × Bool :=
    match item0 with
    | .undefined =>
        let o := fetchData w uri
        (o.w, o.fired, (match o.ret with | some d => JsVal.deco d | none => .undefined), true)
    | v => (w, [], v, false)
  let w1 := step.1
  let item := step.2.2.1
  let selfEmit : List (Decoration × Bool) :=
    match item with
    | .deco d => [(d, false)]
    | _ => []
  let childEmits : List (Decoration × Bool) :=
    if includeChildren then
      (TernarySearchTree.findSuperstr w1.data uri).filterMap
        (fun e => match e.2 with | CacheVal.deco d => some (d, true) | _ => none)
    else []
  { w := w1, emits := selfEmit ++ childEmits, fired := step.2.1, fetched := step.2.2.2 }

/-- The wrapper method knowsAbout (decorations-service.ts lines 73-75): the
truthiness of the slot read, or the existence of any strict-descendant node
in the tree. -/
def knowsAbout (c : Cache) (uri : Path) : Bool :=
  (jsGet c uri).truthy || !(TernarySearchTree.findSuperstr c uri).isEmpty

/-- An event on the aggregate change stream, identified by what its
affectsResource predicate closes over: the constant-true predicate of
registration and flush events, or the knowsAbout predicate over the cache
content observed when an unregistration event fires. -/
inductive AggEvent where
  | all
  | scoped (c : Cache)
deriving DecidableEq

/-- The affectsResource predicate of an aggregate event. -/
def AggEvent.affectsResource : AggEvent → Path → Bool
  | .all, _ => true
  | .scoped c, uri => knowsAbout c uri

/-- State of DecorationsServiceImpl (decorations-service.ts lines 156-210).
Wrapper objects live in a heap keyed by a fresh wid (JS object identity);
sdata is the _data array holding the wids of the live wrappers in
registration order.  delayedLog records the uris fired on the private
emitter _onDidChangeDecorationsDelayed, which no code subscribes to;
publicLog records the events fired on onDidChangeDecorationsEmitter, whose
event is the public onDidChangeDecorations stream. -/
structure DecorationsServiceImpl where
  heap : List (Nat × DecorationProviderWrapper)
  sdata : List Nat
  nextWid : Nat
  delayedLog : List Path
  publicLog : List AggEvent

/-- The service with no providers registered. -/
def emptyService : DecorationsServiceImpl :=
  { heap := [], sdata := [], nextWid := 0, delayedLog := [], publicLog := [] }

/-- registerDecorationsProvider (decorations-service.ts lines 173-195,
before the Disposable is built): creates a wrapper, pushes it onto _data,
and fires the affects-everything event; returns the new wrapper's wid, which
the disposal callback closes over. -/
def registerDecorationsProvider (s : DecorationsServiceImpl)
    (provide : Path → ProvideResult) : DecorationsServiceImpl × Nat :=
  let wid := s.nextWid
  let w : DecorationProviderWrapper :=
    { provide := provide, data := [], nextId := 0, cancelled := [] }
  ({ s with heap := s.heap ++ [(wid, w)],
            sdata := s.sdata ++ [wid],
            nextWid := wid + 1,
            publicLog := s.publicLog ++ [.all] }, wid)

/-- JavaScript Array.prototype.indexOf over the _data array: the index of
the first occurrence, or -1. -/
def jsIndexOf (l : List Nat) (wid : Nat) : Int :=
  match l.findIdx? (· = wid) with
  | some n => (n : Int)
  | none => -1

/-- JavaScript Array.prototype.splice(i, 1): a negative index counts from
the end clamped at zero, and the element at the resulting index is removed
when it exists. -/
def jsSplice1 (l : List α) (i : Int) : List α :=
  let start : Nat := if i < 0 then ((l.length : Int) + i).toNat else i.toNat
  l.eraseIdx start

/-- The disposal callback of a registration (decorations-service.ts lines
188-194): splice the wrapper out of _data at indexOf, fire the event whose
predicate is the wrapper's knowsAbout (evaluated here against the cache
content at fire time, matching the synchronous delivery of Emitter.fire),
then wrapper.dispose() clears the wrapper's cache. -/
def disposeRegistration (s : DecorationsServiceImpl) (wid : Nat) :
    DecorationsServiceImpl :=
  let idx := jsIndexOf s.sdata wid
  let c : Cache :=
    match TernarySearchTree.get s.heap wid with
    | some w => w.data
    | none => []
  let heap1 :=
    match TernarySearchTree.get s.heap wid with
    | some w => (TernarySearchTree.set s.heap wid { w with data := [] }).1
    | none => s.heap
  { s with sdata := jsSplice1 s.sdata idx,
           publicLog := s.publicLog ++ [.scoped c],
           heap := heap1 }

/-- Output of getDecoration: the updated service, the returned decoration
list, and for each live wrapper (in order) whether its getOrRetrieve
triggered a provider fetch. -/
structure GetOut where
  s : DecorationsServiceImpl
  result : List Decoration
  fetched : List Bool

/-- The filter of the getDecoration callback (decorations-service.ts lines
201-206): a reported decoration is kept when it is not a child or its bubble
flag is set. -/
def pushFilter (emits : List (Decoration × Bool)) : List Decoration :=
  emits.filterMap (fun p => if !p.2 || p.1.bubble then some p.1 else none)

/-- One iteration of the getDecoration loop (decorations-service.ts lines
200-206) for the wrapper with the given wid: run getOrRetrieve and keep a
callback's decoration when it is not a child or has its bubble flag set. -/
def getDecorationStep (uri : Path) (includeChildren : Bool) (acc : GetOut) (wid : Nat) :
    GetOut :=
  match TernarySearchTree.get acc.s.heap wid with
  | none => acc
  | some w =>
      let o := getOrRetrieve w uri includeChildren
      let pushed := pushFilter o.emits
      let s1 := { acc.s with
        heap := (TernarySearchTree.set acc.s.heap wid o.w).1,
        delayedLog := acc.s.delayedLog ++ o.fired }
      { s := s1,
        result := acc.result ++ pushed,
        fetched := acc.fetched ++ [o.fetched] }

/-- getDecoration (decorations-service.ts lines 197-209): fold the loop over
the live wrappers in registration order. -/
def getDecoration (s : DecorationsServiceImpl) (uri : Path) (includeChildren : Bool) :
    GetOut :=
  s.sdata.foldl (getDecorationStep uri includeChildren)
    { s := s, result := [], fetched := [] }

/-- Resolution of wrapper wid's in-flight request id for uri, as observed at
the service: the wrapper's per-resource fires land on the private delayed
emitter only. -/
def serviceCompleteOk (s : DecorationsServiceImpl) (wid : Nat) (id : Nat) (uri : Path)
    (data : Option Decoration) : DecorationsServiceImpl :=
  match TernarySearchTree.get s.heap wid with
  | none => s
  | some w =>
      let r := completeOk w id uri data
      { s with heap := (TernarySearchTree.set s.heap wid r.1).1,
               delayedLog := s.delayedLog ++ r.2 }

/-- The DecorationData tuple of the plugin API, as consumed by
decorations-main.ts line 114: bubble, tooltip, letter and a theme color
id. -/
structure DecorationData where
  dBubble : Option Bool
  dTooltip : Option String
  dLetter : Option String
  dColorId : Option String
deriving DecidableEq, Repr

/-- State of DecorationRequestsQueue (decorations-main.ts lines 33-85).
requests and resolvers are the current _requests and _resolver maps in
insertion order (a resolver is identified by its request id); timerSet says
whether _timer currently holds a scheduled timeout; scheduleCount counts the
setTimeout calls ever made; inflight holds, per batched call not yet
completed, the request list handed to the proxy together with the captured
resolver map; batchCalls logs every batched proxy call; delivered logs every
resolve(data[id]) performed when a batch completes. -/
structure DecorationRequestsQueue where
  idPool : Nat
  requests : List (Nat × Path)
  resolvers : List Nat
  timerSet : Bool
  scheduleCount : Nat
  inflight : List (List (Nat × Path) × List Nat)
  batchCalls : List (List (Nat × Path))
  delivered : List (Nat × Option DecorationData)

/-- A freshly constructed queue. -/
def emptyQueue : DecorationRequestsQueue :=
  { idPool := 0, requests := [], resolvers := [], timerSet := false,
    scheduleCount := 0, inflight := [], batchCalls := [], delivered := [] }

/-- The externally driven events of the queue: an enqueue call, the firing
of a caller's cancellation token, the firing of the scheduled timeout, and
the completion of the oldest outstanding batched call with the proxy's
result map. -/
inductive QEv where
  | enq (uri : Path)
  | cancel (id : Nat)
  | fire
  | complete (data : Nat → Option DecorationData)

/-- Whether an event can occur inside one scheduling turn (enqueue and
token cancellation are synchronous; the timeout and the proxy completion run
in later turns). -/
def QEv.isTurnOp : QEv → Bool
  | .enq _ => true
  | .cancel _ => true
  | _ => false

/-- One step of the queue.  enq is enqueue (decorations-main.ts lines
50-62): allocate ++idPool, record the request and its resolver, and let
processQueue schedule a timeout unless one is already pending.  cancel is
the onCancellationRequested handler (lines 57-60): it deletes from the
current maps - after a flush these are the fresh maps, so an in-flight
batch's captured resolver is not touched.  fire is the timeout body (lines
69-83): snapshot the maps, issue one batched call, and reset the maps and
the timer.  complete is the then-handler of the batched call (lines 74-76):
resolve every waiter of the captured resolver map with its entry of the
result. -/
def qstep (q : DecorationRequestsQueue) : QEv → DecorationRequestsQueue
  | .enq uri =>
      let id := q.idPool + 1
      let q := { q with idPool := id,
                        requests := q.requests ++ [(id, uri)],
                        resolvers := q.resolvers ++ [id] }
      if q.timerSet then q
      else { q with timerSet := true, scheduleCount := q.scheduleCount + 1 }
  | .cancel id =>
      { q with requests := q.requests.filter (fun e => e.1 ≠ id),
               resolvers := q.resolvers.filter (fun i => i ≠ id) }
  | .fire =>
      if q.timerSet then
        { q with inflight := q.inflight ++ [(q.requests, q.resolvers)],
                 batchCalls := q.batchCalls ++ [q.requests],
                 requests := [], resolvers := [], timerSet := false }
      else q
  | .complete data =>
      match q.inflight with
      | [] => q
      | b :: rest =>
          { q with inflight := rest,
                   delivered := q.delivered ++ b.2.map (fun i => (i, data i)) }

/-- Running a sequence of queue events. -/
def qrun (q : DecorationRequestsQueue) (evs : List QEv) : DecorationRequestsQueue :=
  evs.foldl qstep q

end TheiaDecorations

namespace TheiaDecorations

/-- Per-wrapper state invariant: cache keys are unique; request ids stored
in the cache or already cancelled are below the freshness counter; a
cancelled request id never sits in the cache; and a request id occupies at
most one slot. -/
structure WInv (w : DecorationProviderWrapper) : Prop where
  keysNodup : (w.data.map Prod.fst).Nodup
  freshData : ∀ k i, TernarySearchTree.get w.data k = some (.req i) → i < w.nextId
  freshCancelled : ∀ i ∈ w.cancelled, i < w.nextId
  cancelledGone : ∀ i ∈ w.cancelled, ∀ k,
    TernarySearchTree.get w.data k ≠ some (.req i)
  reqUnique : ∀ k k2 i, TernarySearchTree.get w.data k = some (.req i) →
    TernarySearchTree.get w.data k2 = some (.req i) → k = k2


/-- Liveness predicate used to state that a request id can never be
resolved any more: it occurs neither in the live maps, nor in any captured
in-flight batch, nor among the delivered results, and it is not above the
id pool (so no later enqueue can reuse it). -/
def QDead (q : DecorationRequestsQueue) (id : Nat) : Prop :=
  (∀ e ∈ q.requests, e.1 ≠ id) ∧ id ∉ q.resolvers ∧
  (∀ b ∈ q.inflight, id ∉ b.2) ∧ (∀ e ∈ q.delivered, e.1 ≠ id) ∧ id ≤ q.idPool

/-- A service whose live set holds exactly one given wrapper. -/
def singleWrapperService (w : DecorationProviderWrapper) : DecorationsServiceImpl :=
  { heap := [(0, w)], sdata := [0], nextWid := 1, delayedLog := [], publicLog := [] }

/-- Concrete resource paths used by the witnesses and counterexamples. -/
def pWit : Path := ["a"]

/-- A strict descendant of pWit. -/
def pChild : Path := ["a", "b"]

/-- A third, unrelated resource path. -/
def pOther : Path := ["c"]

/-- A concrete present decoration with the bubble flag set. -/
def dWit : Decoration :=
  { weight := some 1, color := none, letterBadge := none, tooltip := none, bubble := true }

/-- A concrete present decoration with the bubble flag cleared. -/
def dNoBubble : Decoration :=
  { weight := some 2, color := none, letterBadge := none, tooltip := none, bubble := false }

/-- A provider that always answers asynchronously. -/
def thenProvider : Path → ProvideResult := fun _ => .thenable

/-- A provider that always answers synchronously with undefined. -/
def emptyProvider : Path → ProvideResult := fun _ => .syncEmpty

/-- A provider that always answers synchronously with dWit. -/
def syncProvider : Path → ProvideResult := fun _ => .syncDeco dWit

/-- A freshly constructed wrapper around the asynchronous provider. -/
def winit : DecorationProviderWrapper :=
  { provide := thenProvider, data := [], nextId := 0, cancelled := [] }

/-- The wrapper after one fetch of pWit: the slot holds pending request 0. -/
def wexC1 : DecorationProviderWrapper := (fetchData winit pWit).w

/-- A wrapper whose cache has pWit resolved to the present decoration dWit. -/
def wSelf : DecorationProviderWrapper :=
  { provide := thenProvider, data := [(pWit, .deco dWit)], nextId := 0, cancelled := [] }

/-- A wrapper whose cache has the descendant pChild resolved to dWit. -/
def wChild : DecorationProviderWrapper :=
  { provide := thenProvider, data := [(pChild, .deco dWit)], nextId := 0, cancelled := [] }

/-- A concrete DecorationData reply of the remote provider. -/
def ddWit : DecorationData :=
  { dBubble := some true, dTooltip := none, dLetter := none, dColorId := none }

/-- The service after registering the synchronous provider. -/
def svcSync : DecorationsServiceImpl :=
  (registerDecorationsProvider emptyService syncProvider).1

/-- The service after registering the synchronously empty provider. -/
def svcEmptyProv : DecorationsServiceImpl :=
  (registerDecorationsProvider emptyService emptyProvider).1

/-- svcEmptyProv after one query of pWit: the provider resolved pWit empty, so
the wrapper's cache stores undefined at pWit. -/
def svcEmptyQueried : DecorationsServiceImpl := (getDecoration svcEmptyProv pWit false).s

/-- A service with two registered asynchronous providers. -/
def svcTwo : DecorationsServiceImpl :=
  (registerDecorationsProvider
    (registerDecorationsProvider emptyService thenProvider).1 thenProvider).1

/-- svcTwo after disposing the first registration once. -/
def svcTwoD1 : DecorationsServiceImpl := disposeRegistration svcTwo 0

/-- svcTwo after disposing the first registration twice. -/
def svcTwoD2 : DecorationsServiceImpl := disposeRegistration svcTwoD1 0

/-- The service after registering the asynchronous provider. -/
def svcAsync : DecorationsServiceImpl :=
  (registerDecorationsProvider emptyService thenProvider).1

/-- svcAsync after one query of pWit: wrapper 0 holds pending request 0. -/
def svcAsyncQ : DecorationsServiceImpl := (getDecoration svcAsync pWit false).s

/-- The queue after enqueue of pWit, flush, and then cancellation of the
request: the cancellation fires after the batch was sent. -/
def qCancelLate : DecorationRequestsQueue :=
  qrun emptyQueue [.enq pWit, .fire, .cancel 1]

/-- The queue after enqueue of pWit immediately followed by cancellation of
the request, before any flush. -/
def qCancelEarly : DecorationRequestsQueue :=
  qstep (qstep emptyQueue (.enq pWit)) (.cancel 1)

/-- A wrapper around the synchronously empty provider whose cache already
holds a present decoration for pWit. -/
def wSelfU : DecorationProviderWrapper :=
  { provide := emptyProvider, data := [(pWit, .deco dWit)], nextId := 0, cancelled := [] }

section TreeLemmas

variable {κ : Type} {ν : Type} [DecidableEq κ]

theorem TernarySearchTree.get_set_self (c : List (κ × ν)) (k : κ) (v : ν) :
    TernarySearchTree.get (TernarySearchTree.set c k v).1 k = some v := by
  induction c with
  | nil => simp [TernarySearchTree.set, TernarySearchTree.get]
  | cons e rest ih =>
      by_cases h : e.1 = k
      · simp [TernarySearchTree.set, TernarySearchTree.get, h]
      · simp [TernarySearchTree.set, TernarySearchTree.get, h, ih]

theorem TernarySearchTree.get_set_ne (c : List (κ × ν)) (k k2 : κ) (v : ν)
    (h : k2 ≠ k) :
    TernarySearchTree.get (TernarySearchTree.set c k v).1 k2 =
      TernarySearchTree.get c k2 := by
  have h' : ¬ k = k2 := fun h2 => h h2.symm
  induction c with
  | nil => simp [TernarySearchTree.set, TernarySearchTree.get, h']
  | cons e rest ih =>
      by_cases he : e.1 = k
      · simp [TernarySearchTree.set, TernarySearchTree.get, he, h']
      · by_cases he2 : e.1 = k2
        · simp [TernarySearchTree.set, TernarySearchTree.get, he, he2, h, h']
        · simp [TernarySearchTree.set, TernarySearchTree.get, he, he2, ih]

theorem TernarySearchTree.set_snd (c : List (κ × ν)) (k : κ) (v : ν) :
    (TernarySearchTree.set c k v).2 = TernarySearchTree.get c k := by
  induction c with
  | nil => simp [TernarySearchTree.set, TernarySearchTree.get]
  | cons e rest ih =>
      by_cases he : e.1 = k
      · simp [TernarySearchTree.set, TernarySearchTree.get, he]
      · simp [TernarySearchTree.set, TernarySearchTree.get, he, ih]

theorem TernarySearchTree.get_delete_self (c : List (κ × ν)) (k : κ) :
    TernarySearchTree.get (TernarySearchTree.delete c k) k = none := by
  induction c with
  | nil => simp [TernarySearchTree.delete, TernarySearchTree.get]
  | cons e rest ih =>
      by_cases h : e.1 = k
      · simp [TernarySearchTree.delete, h, ih]
      · simp [TernarySearchTree.delete, TernarySearchTree.get, h, ih]

theorem TernarySearchTree.get_delete_ne (c : List (κ × ν)) (k k2 : κ) (h : k2 ≠ k) :
    TernarySearchTree.get (TernarySearchTree.delete c k) k2 =
      TernarySearchTree.get c k2 := by
  have h' : ¬ k = k2 := fun h2 => h h2.symm
  induction c with
  | nil => simp [TernarySearchTree.delete]
  | cons e rest ih =>
      by_cases he : e.1 = k
      · have he2 : ¬ e.1 = k2 := fun h2 => h' (he ▸ h2)
        simp [TernarySearchTree.delete, TernarySearchTree.get, he, he2, ih, h, h']
      · by_cases he2 : e.1 = k2
        · simp [TernarySearchTree.delete, TernarySearchTree.get, he, he2, h, h']
        · simp [TernarySearchTree.delete, TernarySearchTree.get, he, he2, ih]

theorem TernarySearchTree.mem_of_get : ∀ {c : List (κ × ν)} {k : κ} {v : ν},
    TernarySearchTree.get c k = some v → (k, v) ∈ c := by
  intro c
  induction c with
  | nil => intro k v h; simp [TernarySearchTree.get] at h
  | cons e rest ih =>
      intro k v h
      obtain ⟨a, b⟩ := e
      by_cases he : a = k
      · simp [TernarySearchTree.get, he] at h
        subst he
        subst h
        exact List.mem_cons_self _ _
      · simp [TernarySearchTree.get, he] at h
        exact List.mem_cons_of_mem _ (ih h)

theorem TernarySearchTree.mem_keys_set (c : List (κ × ν)) (k a : κ) (v : ν)
    (h : a ∈ ((TernarySearchTree.set c k v).1.map Prod.fst)) :
    a = k ∨ a ∈ c.map Prod.fst := by
  induction c with
  | nil =>
      simp [TernarySearchTree.set] at h
      exact Or.inl h
  | cons e rest ih =>
      by_cases he : e.1 = k
      · simp [TernarySearchTree.set, he] at h
        rcases h with h | h
        · exact Or.inl h
        · exact Or.inr (by simp [h])
      · simp [TernarySearchTree.set, he] at h
        rcases h with h | h
        · exact Or.inr (by simp [h])
        · rcases ih (by simpa using h) with h2 | h2
          · exact Or.inl h2
          · exact Or.inr (by simp [h2])

theorem TernarySearchTree.keys_nodup_set (c : List (κ × ν)) (k : κ) (v : ν)
    (h : (c.map Prod.fst).Nodup) :
    ((TernarySearchTree.set c k v).1.map Prod.fst).Nodup := by
  induction c with
  | nil => simp [TernarySearchTree.set]
  | cons e rest ih =>
      simp only [List.map_cons, List.nodup_cons] at h
      by_cases he : e.1 = k
      · simp only [TernarySearchTree.set, he, if_true, List.map_cons, List.nodup_cons]
        exact ⟨he ▸ h.1, h.2⟩
      · simp only [TernarySearchTree.set, he, if_false, List.map_cons, List.nodup_cons]
        refine ⟨?_, ih h.2⟩
        intro hmem
        rcases TernarySearchTree.mem_keys_set rest k e.1 v hmem with h2 | h2
        · exact he h2
        · exact h.1 h2

theorem TernarySearchTree.delete_sublist (c : List (κ × ν)) (k : κ) :
    List.Sublist (TernarySearchTree.delete c k) c := by
  induction c with
  | nil => simp [TernarySearchTree.delete]
  | cons e rest ih =>
      by_cases he : e.1 = k
      · simp only [TernarySearchTree.delete, he, if_true]
        exact ih.cons e
      · simp only [TernarySearchTree.delete, he, if_false]
        exact ih.cons₂ e

theorem TernarySearchTree.keys_nodup_delete (c : List (κ × ν)) (k : κ)
    (h : (c.map Prod.fst).Nodup) :
    ((TernarySearchTree.delete c k).map Prod.fst).Nodup :=
  h.sublist ((TernarySearchTree.delete_sublist c k).map Prod.fst)

theorem countP_keyEq_le_one (c : List (κ × ν)) (h : (c.map Prod.fst).Nodup) (k : κ) :
    c.countP (fun e => decide (e.1 = k)) ≤ 1 := by
  induction c with
  | nil => simp
  | cons e rest ih =>
      simp only [List.map_cons, List.nodup_cons] at h
      rw [List.countP_cons]
      by_cases he : e.1 = k
      · have hzero : rest.countP (fun e => decide (e.1 = k)) = 0 := by
          rw [List.countP_eq_zero]
          intro a ha
          simp only [decide_eq_true_eq]
          intro hak
          exact h.1 (by
            have : a.1 ∈ rest.map Prod.fst := List.mem_map_of_mem Prod.fst ha
            rwa [hak, ← he] at this)
        simp [he, hzero]
      · simp [he, ih h.2]

end TreeLemmas

end TheiaDecorations
namespace TheiaDecorations

section WrapperLemmas

theorem jsGet_req_iff (c : Cache) (k : Path) (i : Nat) :
    jsGet c k = .req i ↔ TernarySearchTree.get c k = some (.req i) := by
  unfold jsGet
  cases h : TernarySearchTree.get c k with
  | none => simp
  | some v => cases v <;> simp

theorem keepItem_data (w : DecorationProviderWrapper) (uri : Path)
    (data : Option Decoration) :
    (keepItem w uri data).w.data =
      (TernarySearchTree.set w.data uri
        (match data with | some d => .deco d | none => .empty)).1 := rfl

theorem keepItem_nextId (w : DecorationProviderWrapper) (uri : Path)
    (data : Option Decoration) : (keepItem w uri data).w.nextId = w.nextId := rfl

theorem keepItem_cancelled (w : DecorationProviderWrapper) (uri : Path)
    (data : Option Decoration) : (keepItem w uri data).w.cancelled = w.cancelled := rfl

theorem WInv_keepItem (w : DecorationProviderWrapper) (uri : Path)
    (data : Option Decoration) (h : WInv w) : WInv (keepItem w uri data).w := by
  constructor
  · rw [keepItem_data]
    exact TernarySearchTree.keys_nodup_set _ _ _ h.keysNodup
  · intro k i hget
    rw [keepItem_data] at hget
    rw [keepItem_nextId]
    by_cases hk : k = uri
    · subst hk
      rw [TernarySearchTree.get_set_self] at hget
      cases data <;> simp at hget
    · rw [TernarySearchTree.get_set_ne _ _ _ _ hk] at hget
      exact h.freshData k i hget
  · rw [keepItem_cancelled, keepItem_nextId]
    exact h.freshCancelled
  · intro i hi k
    rw [keepItem_cancelled] at hi
    rw [keepItem_data]
    by_cases hk : k = uri
    · subst hk
      rw [TernarySearchTree.get_set_self]
      cases data <;> simp
    · rw [TernarySearchTree.get_set_ne _ _ _ _ hk]
      exact h.cancelledGone i hi k
  · intro k k2 i h1 h2
    rw [keepItem_data] at h1 h2
    by_cases hk : k = uri
    · subst hk
      rw [TernarySearchTree.get_set_self] at h1
      cases data <;> simp at h1
    · by_cases hk2 : k2 = uri
      · subst hk2
        rw [TernarySearchTree.get_set_self] at h2
        cases data <;> simp at h2
      · rw [TernarySearchTree.get_set_ne _ _ _ _ hk] at h1
        rw [TernarySearchTree.get_set_ne _ _ _ _ hk2] at h2
        exact h.reqUnique k k2 i h1 h2

theorem cancelPending_provide (w : DecorationProviderWrapper) (uri : Path) :
    (cancelPending w uri).provide = w.provide := by
  unfold cancelPending
  cases jsGet w.data uri <;> rfl

theorem cancelPending_nextId (w : DecorationProviderWrapper) (uri : Path) :
    (cancelPending w uri).nextId = w.nextId := by
  unfold cancelPending
  cases jsGet w.data uri <;> rfl

theorem WInv_cancelPending (w : DecorationProviderWrapper) (uri : Path)
    (h : WInv w) : WInv (cancelPending w uri) := by
  unfold cancelPending
  cases hj : jsGet w.data uri with
  | undefined => exact h
  | deco d => exact h
  | req r =>
      have hr : TernarySearchTree.get w.data uri = some (.req r) :=
        (jsGet_req_iff _ _ _).mp hj
      constructor
      · exact TernarySearchTree.keys_nodup_delete _ _ h.keysNodup
      · intro k i hget
        by_cases hk : k = uri
        · subst hk
          rw [TernarySearchTree.get_delete_self] at hget
          simp at hget
        · rw [TernarySearchTree.get_delete_ne _ _ _ hk] at hget
          exact h.freshData k i hget
      · intro i hi
        rcases List.mem_cons.mp hi with hir | hic
        · exact hir ▸ h.freshData uri r hr
        · exact h.freshCancelled i hic
      · intro i hi k
        by_cases hk : k = uri
        · subst hk
          rw [TernarySearchTree.get_delete_self]
          simp
        · rw [TernarySearchTree.get_delete_ne _ _ _ hk]
          rcases List.mem_cons.mp hi with hir | hic
          · subst hir
            intro hget
            exact hk (h.reqUnique k uri i hget hr)
          · exact h.cancelledGone i hic k
      · intro k k2 i h1 h2
        by_cases hk : k = uri
        · subst hk
          rw [TernarySearchTree.get_delete_self] at h1
          simp at h1
        · by_cases hk2 : k2 = uri
          · subst hk2
            rw [TernarySearchTree.get_delete_self] at h2
            simp at h2
          · rw [TernarySearchTree.get_delete_ne _ _ _ hk] at h1
            rw [TernarySearchTree.get_delete_ne _ _ _ hk2] at h2
            exact h.reqUnique k k2 i h1 h2

theorem WInv_fetchData (w : DecorationProviderWrapper) (uri : Path)
    (h : WInv w) : WInv (fetchData w uri).w := by
  have h1 := WInv_cancelPending w uri h
  unfold fetchData
  cases hp : (cancelPending w uri).provide uri with
  | syncEmpty => simpa [hp] using WInv_keepItem _ uri none h1
  | syncDeco d => simpa [hp] using WInv_keepItem _ uri (some d) h1
  | thenable =>
      simp only [hp]
      set w2 := cancelPending w uri with hw2
      constructor
      · exact TernarySearchTree.keys_nodup_set _ _ _ h1.keysNodup
      · intro k i hget
        by_cases hk : k = uri
        · subst hk
          rw [TernarySearchTree.get_set_self] at hget
          simp at hget
          show i < w2.nextId + 1
          omega
        · rw [TernarySearchTree.get_set_ne _ _ _ _ hk] at hget
          have := h1.freshData k i hget
          show i < w2.nextId + 1
          omega
      · intro i hi
        have := h1.freshCancelled i hi
        show i < w2.nextId + 1
        omega
      · intro i hi k
        have hlt := h1.freshCancelled i hi
        by_cases hk : k = uri
        · subst hk
          rw [TernarySearchTree.get_set_self]
          intro hcontra
          simp at hcontra
          omega
        · rw [TernarySearchTree.get_set_ne _ _ _ _ hk]
          exact h1.cancelledGone i hi k
      · intro k k2 i hg1 hg2
        by_cases hk : k = uri
        · by_cases hk2 : k2 = uri
          · rw [hk, hk2]
          · subst hk
            rw [TernarySearchTree.get_set_self] at hg1
            rw [TernarySearchTree.get_set_ne _ _ _ _ hk2] at hg2
            simp at hg1
            subst hg1
            have := h1.freshData k2 _ hg2
            omega
        · by_cases hk2 : k2 = uri
          · subst hk2
            rw [TernarySearchTree.get_set_self] at hg2
            rw [TernarySearchTree.get_set_ne _ _ _ _ hk] at hg1
            simp at hg2
            subst hg2
            have := h1.freshData k _ hg1
            omega
          · rw [TernarySearchTree.get_set_ne _ _ _ _ hk] at hg1
            rw [TernarySearchTree.get_set_ne _ _ _ _ hk2] at hg2
            exact h1.reqUnique k k2 i hg1 hg2

theorem WInv_completeOk (w : DecorationProviderWrapper) (id : Nat) (uri : Path)
    (data : Option Decoration) (h : WInv w) : WInv (completeOk w id uri data).1 := by
  unfold completeOk
  by_cases hg : jsGet w.data uri = .req id
  · simpa [hg] using WInv_keepItem w uri data h
  · simpa [hg] using h

theorem WInv_completeErr (w : DecorationProviderWrapper) (id : Nat) (uri : Path)
    (e : JsError) (h : WInv w) : WInv (completeErr w id uri e) := by
  unfold completeErr
  by_cases hg : !isCanceledError e && decide (jsGet w.data uri = JsVal.req id)
  · simp only [hg, if_true]
    constructor
    · exact TernarySearchTree.keys_nodup_delete _ _ h.keysNodup
    · intro k i hget
      by_cases hk : k = uri
      · subst hk
        rw [TernarySearchTree.get_delete_self] at hget
        simp at hget
      · rw [TernarySearchTree.get_delete_ne _ _ _ hk] at hget
        exact h.freshData k i hget
    · exact h.freshCancelled
    · intro i hi k
      by_cases hk : k = uri
      · subst hk
        rw [TernarySearchTree.get_delete_self]
        simp
      · rw [TernarySearchTree.get_delete_ne _ _ _ hk]
        exact h.cancelledGone i hi k
    · intro k k2 i h1 h2
      by_cases hk : k = uri
      · subst hk
        rw [TernarySearchTree.get_delete_self] at h1
        simp at h1
      · by_cases hk2 : k2 = uri
        · subst hk2
          rw [TernarySearchTree.get_delete_self] at h2
          simp at h2
        · rw [TernarySearchTree.get_delete_ne _ _ _ hk] at h1
          rw [TernarySearchTree.get_delete_ne _ _ _ hk2] at h2
          exact h.reqUnique k k2 i h1 h2
  · simp only [hg, if_false]
    exact h

theorem WInv_init (provide : Path → ProvideResult) :
    WInv { provide := provide, data := [], nextId := 0, cancelled := [] } := by
  constructor <;> simp [TernarySearchTree.get]

end WrapperLemmas

end TheiaDecorations
namespace TheiaDecorations

section WrapperBehavior

theorem isStrictDesc_self_false (k : Path) : isStrictDesc k k = false := by
  simp [isStrictDesc]

theorem isStrictDesc_ne (q k : Path) (h : isStrictDesc q k = true) : q ≠ k := by
  intro he
  subst he
  simp [isStrictDesc] at h

theorem findSuperstr_set_self {ν : Type} (c : List (Path × ν)) (k : Path) (v : ν) :
    TernarySearchTree.findSuperstr (TernarySearchTree.set c k v).1 k =
      TernarySearchTree.findSuperstr c k := by
  induction c with
  | nil =>
      simp [TernarySearchTree.set, TernarySearchTree.findSuperstr,
        isStrictDesc_self_false]
  | cons e rest ih =>
      by_cases he : e.1 = k
      · simp [TernarySearchTree.set, TernarySearchTree.findSuperstr, he,
          isStrictDesc_self_false]
      · simp only [TernarySearchTree.set, he, if_false]
        by_cases hp : isStrictDesc e.1 k = true
        · simpa [TernarySearchTree.findSuperstr, hp] using ih
        · simpa [TernarySearchTree.findSuperstr, hp] using ih

theorem findSuperstr_delete_self {ν : Type} (c : List (Path × ν)) (k : Path) :
    TernarySearchTree.findSuperstr (TernarySearchTree.delete c k) k =
      TernarySearchTree.findSuperstr c k := by
  induction c with
  | nil => simp [TernarySearchTree.delete]
  | cons e rest ih =>
      by_cases he : e.1 = k
      · simp only [TernarySearchTree.delete, he, if_true]
        rw [ih]
        simp [TernarySearchTree.findSuperstr, he, isStrictDesc_self_false]
      · by_cases hp : isStrictDesc e.1 k = true
        · simpa [TernarySearchTree.delete, TernarySearchTree.findSuperstr, he, hp]
            using ih
        · simpa [TernarySearchTree.delete, TernarySearchTree.findSuperstr, he, hp]
            using ih

theorem cancelPending_get_ne (w : DecorationProviderWrapper) (uri k : Path)
    (hk : k ≠ uri) :
    TernarySearchTree.get (cancelPending w uri).data k =
      TernarySearchTree.get w.data k := by
  unfold cancelPending
  cases jsGet w.data uri with
  | req i => exact TernarySearchTree.get_delete_ne _ _ _ hk
  | undefined => rfl
  | deco d => rfl

theorem cancelPending_findSuperstr_self (w : DecorationProviderWrapper) (uri : Path) :
    TernarySearchTree.findSuperstr (cancelPending w uri).data uri =
      TernarySearchTree.findSuperstr w.data uri := by
  unfold cancelPending
  cases jsGet w.data uri with
  | req i => exact findSuperstr_delete_self _ _
  | undefined => rfl
  | deco d => rfl

theorem fetchData_get_ne (w : DecorationProviderWrapper) (uri k : Path)
    (hk : k ≠ uri) :
    TernarySearchTree.get (fetchData w uri).w.data k =
      TernarySearchTree.get w.data k := by
  unfold fetchData
  cases hp : (cancelPending w uri).provide uri with
  | syncEmpty =>
      simp only [hp]
      rw [keepItem_data, TernarySearchTree.get_set_ne _ _ _ _ hk]
      exact cancelPending_get_ne w uri k hk
  | syncDeco d =>
      simp only [hp]
      rw [keepItem_data, TernarySearchTree.get_set_ne _ _ _ _ hk]
      exact cancelPending_get_ne w uri k hk
  | thenable =>
      simp only [hp]
      show TernarySearchTree.get
        (TernarySearchTree.set (cancelPending w uri).data uri _).1 k = _
      rw [TernarySearchTree.get_set_ne _ _ _ _ hk]
      exact cancelPending_get_ne w uri k hk

theorem fetchData_findSuperstr_self (w : DecorationProviderWrapper) (uri : Path) :
    TernarySearchTree.findSuperstr (fetchData w uri).w.data uri =
      TernarySearchTree.findSuperstr w.data uri := by
  unfold fetchData
  cases hp : (cancelPending w uri).provide uri with
  | syncEmpty =>
      simp only [hp]
      rw [keepItem_data, findSuperstr_set_self]
      exact cancelPending_findSuperstr_self w uri
  | syncDeco d =>
      simp only [hp]
      rw [keepItem_data, findSuperstr_set_self]
      exact cancelPending_findSuperstr_self w uri
  | thenable =>
      simp only [hp]
      show TernarySearchTree.findSuperstr
        (TernarySearchTree.set (cancelPending w uri).data uri _).1 uri = _
      rw [findSuperstr_set_self]
      exact cancelPending_findSuperstr_self w uri

theorem fetchData_cancels (w : DecorationProviderWrapper) (uri : Path) (r : Nat)
    (h : WInv w) (hj : jsGet w.data uri = .req r) :
    r ∈ (fetchData w uri).w.cancelled ∧
      jsGet (fetchData w uri).w.data uri ≠ .req r := by
  have hr : TernarySearchTree.get w.data uri = some (.req r) :=
    (jsGet_req_iff _ _ _).mp hj
  have hlt : r < w.nextId := h.freshData uri r hr
  have hcp : cancelPending w uri =
      { w with cancelled := r :: w.cancelled,
               data := TernarySearchTree.delete w.data uri } := by
    unfold cancelPending
    rw [hj]
  unfold fetchData
  rw [hcp]
  cases hp : w.provide uri with
  | syncEmpty =>
      simp only [hp]
      constructor
      · show r ∈ r :: w.cancelled
        exact List.mem_cons_self _ _
      · simp [keepItem, jsGet, TernarySearchTree.get_set_self]
  | syncDeco d =>
      simp only [hp]
      constructor
      · show r ∈ r :: w.cancelled
        exact List.mem_cons_self _ _
      · simp [keepItem, jsGet, TernarySearchTree.get_set_self]
  | thenable =>
      simp only [hp]
      constructor
      · show r ∈ r :: w.cancelled
        exact List.mem_cons_self _ _
      · simp [jsGet, TernarySearchTree.get_set_self]
        omega

theorem keepItem_fired (w : DecorationProviderWrapper) (uri : Path)
    (data : Option Decoration) :
    (keepItem w uri data).fired =
      if data.isSome || (match TernarySearchTree.get w.data uri with
        | some (.deco _) => true
        | some (.req _) => true
        | _ => false)
      then [uri] else [] := by
  simp only [keepItem, TernarySearchTree.set_snd]

theorem completeOk_skip (w : DecorationProviderWrapper) (id : Nat) (uri : Path)
    (data : Option Decoration) (hne : jsGet w.data uri ≠ .req id) :
    completeOk w id uri data = (w, []) := by
  simp [completeOk, hne]

theorem completeOk_fires (w : DecorationProviderWrapper) (id : Nat) (uri : Path)
    (data : Option Decoration) (hg : jsGet w.data uri = .req id) :
    (completeOk w id uri data).2 = [uri] := by
  have hr : TernarySearchTree.get w.data uri = some (.req id) :=
    (jsGet_req_iff _ _ _).mp hg
  simp [completeOk, hg, keepItem_fired, hr]

end WrapperBehavior

end TheiaDecorations
namespace TheiaDecorations

section RetrieveLemmas

theorem getOrRetrieve_of_deco (w : DecorationProviderWrapper) (uri : Path)
    (ic : Bool) (d : Decoration) (hj : jsGet w.data uri = .deco d) :
    (getOrRetrieve w uri ic).w = w ∧
      (d, false) ∈ (getOrRetrieve w uri ic).emits ∧
      (getOrRetrieve w uri ic).fetched = false := by
  refine ⟨?_, ?_, ?_⟩
  · simp [getOrRetrieve, hj]
  · simp only [getOrRetrieve, hj]
    exact List.mem_append_left _ (List.mem_singleton.mpr rfl)
  · simp [getOrRetrieve, hj]

theorem getOrRetrieve_get_ne (w : DecorationProviderWrapper) (uri : Path)
    (ic : Bool) (k : Path) (hk : k ≠ uri) :
    TernarySearchTree.get (getOrRetrieve w uri ic).w.data k =
      TernarySearchTree.get w.data k := by
  unfold getOrRetrieve
  cases hj : jsGet w.data uri with
  | undefined =>
      simp only [hj]
      exact fetchData_get_ne w uri k hk
  | req i => simp [hj]
  | deco d => simp [hj]

theorem child_mem_filterMap (c : Cache) (uri q : Path) (d : Decoration)
    (hq : TernarySearchTree.get c q = some (.deco d))
    (hsd : isStrictDesc q uri = true) :
    (d, true) ∈ (TernarySearchTree.findSuperstr c uri).filterMap
      (fun e => match e.2 with | CacheVal.deco d => some (d, true) | _ => none) := by
  refine List.mem_filterMap.mpr ⟨(q, .deco d), ?_, rfl⟩
  exact List.mem_filter.mpr ⟨TernarySearchTree.mem_of_get hq, by simpa using hsd⟩

theorem getOrRetrieve_child_mem (w : DecorationProviderWrapper) (uri q : Path)
    (d : Decoration) (hq : TernarySearchTree.get w.data q = some (.deco d))
    (hsd : isStrictDesc q uri = true) :
    (d, true) ∈ (getOrRetrieve w uri true).emits := by
  have hne : q ≠ uri := isStrictDesc_ne q uri hsd
  have hq1 : TernarySearchTree.get (getOrRetrieve w uri true).w.data q =
      some (.deco d) := by
    rw [getOrRetrieve_get_ne w uri true q hne]
    exact hq
  unfold getOrRetrieve at hq1 ⊢
  cases hj : jsGet w.data uri with
  | undefined =>
      simp only [hj] at hq1 ⊢
      exact List.mem_append_right _ (child_mem_filterMap _ uri q d hq1 hsd)
  | req i =>
      simp only [hj] at hq1 ⊢
      exact List.mem_append_right _ (child_mem_filterMap _ uri q d hq1 hsd)
  | deco d2 =>
      simp only [hj] at hq1 ⊢
      exact List.mem_append_right _ (child_mem_filterMap _ uri q d hq1 hsd)

theorem getOrRetrieve_fetched_of_unknown (w : DecorationProviderWrapper) (uri : Path)
    (ic : Bool) (hj : jsGet w.data uri = .undefined) :
    (getOrRetrieve w uri ic).fetched = true := by
  simp [getOrRetrieve, hj]

theorem fetchData_ret_none (w : DecorationProviderWrapper) (uri : Path)
    (hp : w.provide uri = .thenable ∨ w.provide uri = .syncEmpty) :
    (fetchData w uri).ret = none := by
  unfold fetchData
  rcases hp with hp | hp <;>
    simp [cancelPending_provide, hp, keepItem]

theorem getOrRetrieve_emits_empty (w : DecorationProviderWrapper) (uri : Path)
    (ic : Bool) (hj : jsGet w.data uri = .undefined)
    (hp : w.provide uri = .thenable ∨ w.provide uri = .syncEmpty)
    (hfs : TernarySearchTree.findSuperstr w.data uri = []) :
    (getOrRetrieve w uri ic).emits = [] := by
  unfold getOrRetrieve
  simp only [hj]
  rw [fetchData_ret_none w uri hp]
  have hfs1 : TernarySearchTree.findSuperstr (fetchData w uri).w.data uri = [] := by
    rw [fetchData_findSuperstr_self]
    exact hfs
  simp [hfs1]

end RetrieveLemmas

end TheiaDecorations
namespace TheiaDecorations

section ServiceLemmas

theorem mem_pushFilter_self (d : Decoration) (emits : List (Decoration × Bool))
    (h : (d, false) ∈ emits) : d ∈ pushFilter emits :=
  List.mem_filterMap.mpr ⟨(d, false), h, by simp⟩

theorem mem_pushFilter_child (d : Decoration) (emits : List (Decoration × Bool))
    (h : (d, true) ∈ emits) (hb : d.bubble = true) : d ∈ pushFilter emits :=
  List.mem_filterMap.mpr ⟨(d, true), h, by simp [hb]⟩

theorem getDecorationStep_none (uri : Path) (ic : Bool) (acc : GetOut) (wid : Nat)
    (hw : TernarySearchTree.get acc.s.heap wid = none) :
    getDecorationStep uri ic acc wid = acc := by
  simp [getDecorationStep, hw]

theorem getDecorationStep_result (uri : Path) (ic : Bool) (acc : GetOut) (wid : Nat)
    (w : DecorationProviderWrapper) (hw : TernarySearchTree.get acc.s.heap wid = some w) :
    (getDecorationStep uri ic acc wid).result =
      acc.result ++ pushFilter (getOrRetrieve w uri ic).emits := by
  simp [getDecorationStep, hw]

theorem getDecorationStep_fetched (uri : Path) (ic : Bool) (acc : GetOut) (wid : Nat)
    (w : DecorationProviderWrapper) (hw : TernarySearchTree.get acc.s.heap wid = some w) :
    (getDecorationStep uri ic acc wid).fetched =
      acc.fetched ++ [(getOrRetrieve w uri ic).fetched] := by
  simp [getDecorationStep, hw]

theorem getDecorationStep_heap_ne (uri : Path) (ic : Bool) (acc : GetOut)
    (wid wid2 : Nat) (hne : wid2 ≠ wid) :
    TernarySearchTree.get (getDecorationStep uri ic acc wid).s.heap wid2 =
      TernarySearchTree.get acc.s.heap wid2 := by
  unfold getDecorationStep
  cases hw : TernarySearchTree.get acc.s.heap wid with
  | none => rfl
  | some w =>
      simp only []
      exact TernarySearchTree.get_set_ne _ _ _ _ hne

theorem getDecorationStep_result_grows (uri : Path) (ic : Bool) (acc : GetOut)
    (wid : Nat) :
    ∃ t, (getDecorationStep uri ic acc wid).result = acc.result ++ t := by
  cases hw : TernarySearchTree.get acc.s.heap wid with
  | none => exact ⟨[], by simp [getDecorationStep_none uri ic acc wid hw]⟩
  | some w => exact ⟨_, getDecorationStep_result uri ic acc wid w hw⟩

theorem foldl_result_mono (uri : Path) (ic : Bool) (l : List Nat) :
    ∀ (acc : GetOut) (x : Decoration), x ∈ acc.result →
      x ∈ (l.foldl (getDecorationStep uri ic) acc).result := by
  induction l with
  | nil => intro acc x hx; exact hx
  | cons a t ih =>
      intro acc x hx
      simp only [List.foldl_cons]
      refine ih _ x ?_
      obtain ⟨tt, htt⟩ := getDecorationStep_result_grows uri ic acc a
      rw [htt]
      exact List.mem_append_left _ hx

theorem foldl_self_mem (uri : Path) (ic : Bool) (l : List Nat) :
    ∀ (acc : GetOut) (wid : Nat) (w : DecorationProviderWrapper) (d : Decoration),
      wid ∈ l →
      TernarySearchTree.get acc.s.heap wid = some w →
      TernarySearchTree.get w.data uri = some (.deco d) →
      d ∈ (l.foldl (getDecorationStep uri ic) acc).result := by
  induction l with
  | nil => intro acc wid w d h; simp at h
  | cons a t ih =>
      intro acc wid w d hwid hw hd
      simp only [List.foldl_cons]
      by_cases ha : a = wid
      · subst ha
        refine foldl_result_mono uri ic t _ d ?_
        rw [getDecorationStep_result uri ic acc a w hw]
        refine List.mem_append_right _ ?_
        have hj : jsGet w.data uri = .deco d := by simp [jsGet, hd]
        exact mem_pushFilter_self d _ (getOrRetrieve_of_deco w uri ic d hj).2.1
      · have hwid2 : wid ∈ t := by
          rcases List.mem_cons.mp hwid with h | h
          · exact absurd h.symm ha
          · exact h
        refine ih _ wid w d hwid2 ?_ hd
        rw [getDecorationStep_heap_ne uri ic acc a wid (fun h => ha h.symm)]
        exact hw

theorem foldl_child_mem (uri : Path) (l : List Nat) :
    ∀ (acc : GetOut) (wid : Nat) (w : DecorationProviderWrapper) (q : Path)
      (d : Decoration),
      wid ∈ l →
      TernarySearchTree.get acc.s.heap wid = some w →
      TernarySearchTree.get w.data q = some (.deco d) →
      isStrictDesc q uri = true →
      d.bubble = true →
      d ∈ (l.foldl (getDecorationStep uri true) acc).result := by
  induction l with
  | nil => intro acc wid w q d h; simp at h
  | cons a t ih =>
      intro acc wid w q d hwid hw hq hsd hb
      simp only [List.foldl_cons]
      by_cases ha : a = wid
      · subst ha
        refine foldl_result_mono uri true t _ d ?_
        rw [getDecorationStep_result uri true acc a w hw]
        refine List.mem_append_right _ ?_
        exact mem_pushFilter_child d _ (getOrRetrieve_child_mem w uri q d hq hsd) hb
      · have hwid2 : wid ∈ t := by
          rcases List.mem_cons.mp hwid with h | h
          · exact absurd h.symm ha
          · exact h
        refine ih _ wid w q d hwid2 ?_ hq hsd hb
        rw [getDecorationStep_heap_ne uri true acc a wid (fun h => ha h.symm)]
        exact hw

theorem foldl_fetched (uri : Path) (ic : Bool) (l : List Nat) :
    ∀ (acc : GetOut),
      l.Nodup →
      (∀ wid ∈ l, ∃ w, TernarySearchTree.get acc.s.heap wid = some w ∧
        TernarySearchTree.get w.data uri = none) →
      (l.foldl (getDecorationStep uri ic) acc).fetched =
        acc.fetched ++ List.replicate l.length true := by
  induction l with
  | nil => intro acc _ _; simp
  | cons a t ih =>
      intro acc hnd hall
      obtain ⟨w, hw, hwu⟩ := hall a (List.mem_cons_self a t)
      simp only [List.foldl_cons]
      have hj : jsGet w.data uri = .undefined := by simp [jsGet, hwu]
      have hstep : (getDecorationStep uri ic acc a).fetched = acc.fetched ++ [true] := by
        rw [getDecorationStep_fetched uri ic acc a w hw,
          getOrRetrieve_fetched_of_unknown w uri ic hj]
      have hrest := ih (getDecorationStep uri ic acc a)
        (List.Nodup.of_cons hnd)
        (by
          intro wid hwid
          obtain ⟨w2, hw2, hw2u⟩ := hall wid (List.mem_cons_of_mem a hwid)
          have hne : wid ≠ a := by
            intro h
            subst h
            exact (List.nodup_cons.mp hnd).1 hwid
          refine ⟨w2, ?_, hw2u⟩
          rw [getDecorationStep_heap_ne uri ic acc a wid hne]
          exact hw2)
      rw [hrest, hstep]
      simp [List.replicate_succ]

theorem foldl_result_empty (uri : Path) (ic : Bool) (l : List Nat) :
    ∀ (acc : GetOut),
      l.Nodup →
      (∀ wid ∈ l, ∃ w, TernarySearchTree.get acc.s.heap wid = some w ∧
        TernarySearchTree.get w.data uri = none ∧
        (w.provide uri = .thenable ∨ w.provide uri = .syncEmpty) ∧
        TernarySearchTree.findSuperstr w.data uri = []) →
      (l.foldl (getDecorationStep uri ic) acc).result = acc.result := by
  induction l with
  | nil => intro acc _ _; simp
  | cons a t ih =>
      intro acc hnd hall
      obtain ⟨w, hw, hwu, hwp, hwf⟩ := hall a (List.mem_cons_self a t)
      simp only [List.foldl_cons]
      have hj : jsGet w.data uri = .undefined := by simp [jsGet, hwu]
      have hstep : (getDecorationStep uri ic acc a).result = acc.result := by
        rw [getDecorationStep_result uri ic acc a w hw,
          getOrRetrieve_emits_empty w uri ic hj hwp hwf]
        simp [pushFilter]
      have hrest := ih (getDecorationStep uri ic acc a)
        (List.Nodup.of_cons hnd)
        (by
          intro wid hwid
          obtain ⟨w2, hw2, hrest2⟩ := hall wid (List.mem_cons_of_mem a hwid)
          have hne : wid ≠ a := by
            intro h
            subst h
            exact (List.nodup_cons.mp hnd).1 hwid
          refine ⟨w2, ?_, hrest2⟩
          rw [getDecorationStep_heap_ne uri ic acc a wid hne]
          exact hw2)
      rw [hrest, hstep]

end ServiceLemmas

end TheiaDecorations
namespace TheiaDecorations

section QueueLemmas

theorem qrun_timer_invariant (ops : List QEv) :
    ∀ q : DecorationRequestsQueue, q.timerSet = true →
      (∀ e ∈ ops, e.isTurnOp = true) →
      (qrun q ops).timerSet = true ∧
      (qrun q ops).scheduleCount = q.scheduleCount ∧
      (qrun q ops).batchCalls = q.batchCalls ∧
      (qrun q ops).inflight = q.inflight ∧
      (qrun q ops).delivered = q.delivered := by
  induction ops with
  | nil => intro q ht _; exact ⟨ht, rfl, rfl, rfl, rfl⟩
  | cons e t ih =>
      intro q ht hturn
      have hqr : qrun q (e :: t) = qrun (qstep q e) t := rfl
      cases e with
      | enq uri =>
          have hstep : qstep q (.enq uri) =
              { q with idPool := q.idPool + 1,
                       requests := q.requests ++ [(q.idPool + 1, uri)],
                       resolvers := q.resolvers ++ [q.idPool + 1] } := by
            simp [qstep, ht]
          rw [hqr, hstep]
          exact ih _ ht (fun e2 he2 => hturn e2 (List.mem_cons_of_mem _ he2))
      | cancel i =>
          rw [hqr]
          exact ih _ ht (fun e2 he2 => hturn e2 (List.mem_cons_of_mem _ he2))
      | fire =>
          have := hturn .fire (List.mem_cons_self _ _)
          simp [QEv.isTurnOp] at this
      | complete data =>
          have := hturn (.complete data) (List.mem_cons_self _ _)
          simp [QEv.isTurnOp] at this

theorem qrun_turn (ops : List QEv) :
    ∀ q : DecorationRequestsQueue, q.timerSet = false →
      (∀ e ∈ ops, e.isTurnOp = true) →
      (∃ u, QEv.enq u ∈ ops) →
      (qrun q ops).timerSet = true ∧
      (qrun q ops).scheduleCount = q.scheduleCount + 1 ∧
      (qrun q ops).batchCalls = q.batchCalls ∧
      (qrun q ops).inflight = q.inflight ∧
      (qrun q ops).delivered = q.delivered := by
  induction ops with
  | nil =>
      intro q _ _ hex
      obtain ⟨u, hu⟩ := hex
      simp at hu
  | cons e t ih =>
      intro q ht hturn hex
      have hqr : qrun q (e :: t) = qrun (qstep q e) t := rfl
      cases e with
      | enq uri =>
          have hstep : qstep q (.enq uri) =
              { q with idPool := q.idPool + 1,
                       requests := q.requests ++ [(q.idPool + 1, uri)],
                       resolvers := q.resolvers ++ [q.idPool + 1],
                       timerSet := true,
                       scheduleCount := q.scheduleCount + 1 } := by
            simp [qstep, ht]
          rw [hqr, hstep]
          exact qrun_timer_invariant t _ (by rfl)
            (fun e2 he2 => hturn e2 (List.mem_cons_of_mem _ he2))
      | cancel i =>
          have hex2 : ∃ u, QEv.enq u ∈ t := by
            obtain ⟨u, hu⟩ := hex
            rcases List.mem_cons.mp hu with h | h
            · exact absurd h (by simp)
            · exact ⟨u, h⟩
          rw [hqr]
          exact ih _ ht (fun e2 he2 => hturn e2 (List.mem_cons_of_mem _ he2)) hex2
      | fire =>
          have := hturn .fire (List.mem_cons_self _ _)
          simp [QEv.isTurnOp] at this
      | complete data =>
          have := hturn (.complete data) (List.mem_cons_self _ _)
          simp [QEv.isTurnOp] at this

theorem qfire_spec (q : DecorationRequestsQueue) (ht : q.timerSet = true) :
    (qstep q .fire).batchCalls = q.batchCalls ++ [q.requests] ∧
    (qstep q .fire).inflight = q.inflight ++ [(q.requests, q.resolvers)] ∧
    (qstep q .fire).requests = [] ∧
    (qstep q .fire).resolvers = [] ∧
    (qstep q .fire).timerSet = false := by
  simp [qstep, ht]

theorem qcomplete_spec (q : DecorationRequestsQueue)
    (data : Nat → Option DecorationData) (b : List (Nat × Path) × List Nat)
    (rest : List (List (Nat × Path) × List Nat)) (h : q.inflight = b :: rest) :
    (qstep q (.complete data)).delivered =
      q.delivered ++ b.2.map (fun i => (i, data i)) := by
  simp [qstep, h]

theorem qenq_fields (q : DecorationRequestsQueue) (uri : Path) :
    (qstep q (.enq uri)).requests = q.requests ++ [(q.idPool + 1, uri)] ∧
    (qstep q (.enq uri)).resolvers = q.resolvers ++ [q.idPool + 1] ∧
    (qstep q (.enq uri)).inflight = q.inflight ∧
    (qstep q (.enq uri)).delivered = q.delivered ∧
    (qstep q (.enq uri)).idPool = q.idPool + 1 := by
  by_cases ht : q.timerSet <;> simp [qstep, ht]

theorem qcancel_fields (q : DecorationRequestsQueue) (i : Nat) :
    (qstep q (.cancel i)).requests = q.requests.filter (fun e => e.1 ≠ i) ∧
    (qstep q (.cancel i)).resolvers = q.resolvers.filter (fun j => j ≠ i) ∧
    (qstep q (.cancel i)).inflight = q.inflight ∧
    (qstep q (.cancel i)).delivered = q.delivered ∧
    (qstep q (.cancel i)).idPool = q.idPool := by
  simp [qstep]

theorem qdead_step (q : DecorationRequestsQueue) (id : Nat) (e : QEv)
    (h : QDead q id) : QDead (qstep q e) id := by
  obtain ⟨h1, h2, h3, h4, h5⟩ := h
  cases e with
  | enq uri =>
      obtain ⟨hreq, hres, hinf, hdel, hid⟩ := qenq_fields q uri
      refine ⟨?_, ?_, ?_, ?_, ?_⟩
      · rw [hreq]
        intro e2 he2
        rcases List.mem_append.mp he2 with h | h
        · exact h1 e2 h
        · have : e2 = (q.idPool + 1, uri) := List.mem_singleton.mp h
          subst this
          show q.idPool + 1 ≠ id
          omega
      · rw [hres]
        intro hmem
        rcases List.mem_append.mp hmem with h | h
        · exact h2 h
        · have : id = q.idPool + 1 := List.mem_singleton.mp h
          omega
      · rw [hinf]; exact h3
      · rw [hdel]; exact h4
      · rw [hid]; omega
  | cancel i =>
      obtain ⟨hreq, hres, hinf, hdel, hid⟩ := qcancel_fields q i
      refine ⟨?_, ?_, ?_, ?_, ?_⟩
      · rw [hreq]
        intro e2 he2
        exact h1 e2 (List.mem_of_mem_filter he2)
      · rw [hres]
        intro hmem
        exact h2 (List.mem_of_mem_filter hmem)
      · rw [hinf]; exact h3
      · rw [hdel]; exact h4
      · rw [hid]; exact h5
  | fire =>
      by_cases ht : q.timerSet
      · obtain ⟨hbc, hinf, hreq, hres, _⟩ := qfire_spec q ht
        have hdel : (qstep q .fire).delivered = q.delivered := by simp [qstep, ht]
        have hid : (qstep q .fire).idPool = q.idPool := by simp [qstep, ht]
        refine ⟨?_, ?_, ?_, ?_, ?_⟩
        · rw [hreq]; intro e2 he2; simp at he2
        · rw [hres]; simp
        · rw [hinf]
          intro b hb
          rcases List.mem_append.mp hb with h | h
          · exact h3 b h
          · have : b = (q.requests, q.resolvers) := List.mem_singleton.mp h
            subst this
            exact h2
        · rw [hdel]; exact h4
        · rw [hid]; exact h5
      · have : qstep q .fire = q := by simp [qstep, ht]
        rw [this]
        exact ⟨h1, h2, h3, h4, h5⟩
  | complete data =>
      cases hin : q.inflight with
      | nil =>
          have : qstep q (.complete data) = q := by simp [qstep, hin]
          rw [this]
          exact ⟨h1, h2, h3, h4, h5⟩
      | cons b rest =>
          have hreq : (qstep q (.complete data)).requests = q.requests := by
            simp [qstep, hin]
          have hres : (qstep q (.complete data)).resolvers = q.resolvers := by
            simp [qstep, hin]
          have hinf : (qstep q (.complete data)).inflight = rest := by
            simp [qstep, hin]
          have hid : (qstep q (.complete data)).idPool = q.idPool := by
            simp [qstep, hin]
          refine ⟨?_, ?_, ?_, ?_, ?_⟩
          · rw [hreq]; exact h1
          · rw [hres]; exact h2
          · rw [hinf]
            intro b2 hb2
            exact h3 b2 (by rw [hin]; exact List.mem_cons_of_mem _ hb2)
          · rw [qcomplete_spec q data b rest hin]
            intro e2 he2
            rcases List.mem_append.mp he2 with h | h
            · exact h4 e2 h
            · obtain ⟨i, hi, hie⟩ := List.mem_map.mp h
              have hnotin : id ∉ b.2 := h3 b (by rw [hin]; exact List.mem_cons_self _ _)
              intro hcontra
              rw [← hie] at hcontra
              simp at hcontra
              exact hnotin (hcontra ▸ hi)
          · rw [hid]; exact h5

theorem qdead_run (q : DecorationRequestsQueue) (id : Nat) (evs : List QEv)
    (h : QDead q id) : QDead (qrun q evs) id := by
  induction evs generalizing q with
  | nil => exact h
  | cons e t ih => exact ih _ (qdead_step q id e h)

theorem qdead_after_cancel (q : DecorationRequestsQueue) (uri : Path)
    (hfresh : ∀ b ∈ q.inflight, (q.idPool + 1) ∉ b.2)
    (hdel : ∀ e ∈ q.delivered, e.1 ≠ q.idPool + 1) :
    QDead (qstep (qstep q (.enq uri)) (.cancel (q.idPool + 1))) (q.idPool + 1) := by
  obtain ⟨hreq1, hres1, hinf1, hdel1, hid1⟩ := qenq_fields q uri
  obtain ⟨hreq2, hres2, hinf2, hdel2, hid2⟩ :=
    qcancel_fields (qstep q (.enq uri)) (q.idPool + 1)
  refine ⟨?_, ?_, ?_, ?_, ?_⟩
  · rw [hreq2]
    intro e2 he2
    have := List.of_mem_filter he2
    simpa using this
  · rw [hres2]
    intro hmem
    have := List.of_mem_filter hmem
    simp at this
  · rw [hinf2, hinf1]
    exact hfresh
  · rw [hdel2, hdel1]
    exact hdel
  · rw [hid2, hid1]

end QueueLemmas

end TheiaDecorations
namespace TheiaDecorations

section ServiceHelpers

theorem serviceCompleteOk_publicLog (s : DecorationsServiceImpl) (wid id : Nat)
    (uri : Path) (data : Option Decoration) :
    (serviceCompleteOk s wid id uri data).publicLog = s.publicLog := by
  unfold serviceCompleteOk
  cases h : TernarySearchTree.get s.heap wid <;> simp

theorem getDecorationStep_publicLog (uri : Path) (ic : Bool) (acc : GetOut)
    (wid : Nat) :
    (getDecorationStep uri ic acc wid).s.publicLog = acc.s.publicLog := by
  unfold getDecorationStep
  cases h : TernarySearchTree.get acc.s.heap wid <;> simp

theorem foldl_publicLog (uri : Path) (ic : Bool) (l : List Nat) :
    ∀ acc : GetOut,
      (l.foldl (getDecorationStep uri ic) acc).s.publicLog = acc.s.publicLog := by
  induction l with
  | nil => intro acc; rfl
  | cons a t ih =>
      intro acc
      simp only [List.foldl_cons]
      rw [ih, getDecorationStep_publicLog]

theorem getDecoration_publicLog (s : DecorationsServiceImpl) (uri : Path) (ic : Bool) :
    (getDecoration s uri ic).s.publicLog = s.publicLog :=
  foldl_publicLog uri ic s.sdata _

theorem eraseIdx_pred_length {α : Type} :
    ∀ l : List α, l.eraseIdx (l.length - 1) = l.dropLast
  | [] => rfl
  | [_] => rfl
  | a :: b :: t2 => by
      have ih := eraseIdx_pred_length (b :: t2)
      have h3 : (b :: t2).length - 1 = t2.length := by simp
      rw [h3] at ih
      show a :: (b :: t2).eraseIdx t2.length = a :: (b :: t2).dropLast
      rw [ih]

theorem jsSplice1_neg_one {α : Type} (l : List α) : jsSplice1 l (-1) = l.dropLast := by
  unfold jsSplice1
  cases l with
  | nil => rfl
  | cons a t =>
      have h1 : ((-1 : Int) < 0) = True := by simp
      have h2 : (((a :: t).length : Int) + (-1)).toNat = (a :: t).length - 1 := by
        simp only [List.length_cons]
        omega
      simp only [h1, if_true]
      rw [h2]
      exact eraseIdx_pred_length (a :: t)

theorem disposeRegistration_sdata (s : DecorationsServiceImpl) (wid : Nat) :
    (disposeRegistration s wid).sdata = jsSplice1 s.sdata (jsIndexOf s.sdata wid) := rfl

theorem findSuperstr_isEmpty {ν : Type} (c : List (Path × ν)) (uri : Path) :
    (TernarySearchTree.findSuperstr c uri).isEmpty =
      !c.any (fun e => isStrictDesc e.1 uri) := by
  induction c with
  | nil => rfl
  | cons e rest ih =>
      by_cases hp : isStrictDesc e.1 uri = true
      · simp [TernarySearchTree.findSuperstr, hp]
      · simp only [Bool.not_eq_true] at hp
        simpa [TernarySearchTree.findSuperstr, hp] using ih

theorem knowsAbout_eq (c : Cache) (uri : Path) :
    knowsAbout c uri =
      ((jsGet c uri).truthy || c.any (fun e => isStrictDesc e.1 uri)) := by
  unfold knowsAbout
  rw [findSuperstr_isEmpty]
  simp

theorem getOrRetrieve_emits_noChildren (w : DecorationProviderWrapper) (uri : Path)
    (hj : jsGet w.data uri = .undefined)
    (hp : w.provide uri = .thenable ∨ w.provide uri = .syncEmpty) :
    (getOrRetrieve w uri false).emits = [] := by
  unfold getOrRetrieve
  simp only [hj]
  rw [fetchData_ret_none w uri hp]
  simp

theorem getOrRetrieve_emits_childOnly (w : DecorationProviderWrapper) (uri : Path)
    (hj : jsGet w.data uri = .undefined) (hthen : w.provide uri = .thenable) :
    (getOrRetrieve w uri true).emits =
      (TernarySearchTree.findSuperstr (fetchData w uri).w.data uri).filterMap
        (fun e => match e.2 with | CacheVal.deco d => some (d, true) | _ => none) := by
  unfold getOrRetrieve
  simp only [hj]
  rw [fetchData_ret_none w uri (Or.inl hthen)]
  simp

end ServiceHelpers

end TheiaDecorations
namespace TheiaDecorations

/-- C1: under the wrapper invariant, starting a new fetch while a pending
slot exists first cancels that request's token and the slot no longer holds
it afterwards; an asynchronous completion stores nothing (and fires nothing)
unless the slot still holds exactly that pending request; a cancelled
request's completion is a no-op; the cache holds at most one slot per
resource; and the invariant is preserved by fetches, completions and
failures, so these guarantees hold at any time. -/
theorem c1_pending_exclusive (w : DecorationProviderWrapper) (h : WInv w) :
    (∀ uri r, jsGet w.data uri = .req r →
      r ∈ (fetchData w uri).w.cancelled ∧
      jsGet (fetchData w uri).w.data uri ≠ .req r) ∧
    (∀ id uri data, jsGet w.data uri ≠ .req id →
      completeOk w id uri data = (w, [])) ∧
    (∀ id ∈ w.cancelled, ∀ uri data, completeOk w id uri data = (w, [])) ∧
    (∀ uri, w.data.countP (fun e => decide (e.1 = uri)) ≤ 1) ∧
    (∀ uri, WInv (fetchData w uri).w) ∧
    (∀ id uri data, WInv (completeOk w id uri data).1) ∧
    (∀ id uri e, WInv (completeErr w id uri e)) := by
  refine ⟨?_, ?_, ?_, ?_, ?_, ?_, ?_⟩
  · intro uri r hj
    exact fetchData_cancels w uri r h hj
  · intro id uri data hne
    exact completeOk_skip w id uri data hne
  · intro id hid uri data
    apply completeOk_skip
    intro hcontra
    exact h.cancelledGone id hid uri ((jsGet_req_iff _ _ _).mp hcontra)
  · intro uri
    exact countP_keyEq_le_one w.data h.keysNodup uri
  · intro uri
    exact WInv_fetchData w uri h
  · intro id uri data
    exact WInv_completeOk w id uri data h
  · intro id uri e
    exact WInv_completeErr w id uri e h

/-- Witness for C1 at a concrete state: wexC1 holds pending request 0 for
pWit; a second fetch cancels request 0 and replaces the slot. -/
theorem c1_pending_exclusive_witness :
    (0 : Nat) ∈ (fetchData wexC1 pWit).w.cancelled ∧
    jsGet (fetchData wexC1 pWit).w.data pWit ≠ .req 0 := by
  exact (c1_pending_exclusive wexC1
    (WInv_fetchData winit pWit (WInv_init thenProvider))).1 pWit 0 (by decide)

/-- Counterexample to C7 as stated: completing the pending fetch of a
never-resolved resource with an empty result fires a notification, although
neither the new value nor the previous value is a present decoration (the
previous slot content is the pending request object). -/
theorem c7_counterexample :
    TernarySearchTree.get wexC1.data pWit = some (.req 0) ∧
    (completeOk wexC1 0 pWit none).2 = [pWit] := by
  exact ⟨by decide, by decide⟩

/-- C7 amended: a synchronous store fires iff the new value is a present
decoration or the previous slot held a present decoration, and storing
empty over empty is silent; but every guarded asynchronous store fires,
because the old slot content returned by set is the pending request object,
which is truthy.  In both cases the slot is replaced with the resolved
decoration or the stored undefined marker. -/
theorem c7_store_notify (w : DecorationProviderWrapper) (uri : Path) :
    (∀ d0, w.provide uri = .syncDeco d0 →
      (fetchData w uri).fired = [uri] ∧
      TernarySearchTree.get (fetchData w uri).w.data uri = some (.deco d0)) ∧
    (w.provide uri = .syncEmpty →
      (fetchData w uri).fired =
        (match TernarySearchTree.get w.data uri with
         | some (.deco _) => [uri]
         | _ => []) ∧
      TernarySearchTree.get (fetchData w uri).w.data uri = some .empty) ∧
    (∀ id data, jsGet w.data uri = .req id →
      (completeOk w id uri data).2 = [uri] ∧
      TernarySearchTree.get (completeOk w id uri data).1.data uri =
        some (match data with | some d => CacheVal.deco d | none => .empty)) := by
  refine ⟨?_, ?_, ?_⟩
  · intro d0 hp
    simp only [fetchData]
    rw [cancelPending_provide, hp]
    constructor
    · simp [keepItem_fired]
    · rw [keepItem_data, TernarySearchTree.get_set_self]
  · intro hp
    simp only [fetchData]
    rw [cancelPending_provide, hp]
    refine ⟨?_, by rw [keepItem_data, TernarySearchTree.get_set_self]⟩
    rw [keepItem_fired]
    cases hval : TernarySearchTree.get w.data uri with
    | none =>
        have hj : jsGet w.data uri = .undefined := by simp [jsGet, hval]
        have : cancelPending w uri = w := by simp [cancelPending, hj]
        rw [this, hval]
        simp
    | some v =>
        cases v with
        | empty =>
            have hj : jsGet w.data uri = .undefined := by simp [jsGet, hval]
            have : cancelPending w uri = w := by simp [cancelPending, hj]
            rw [this, hval]
            simp
        | deco p =>
            have hj : jsGet w.data uri = .deco p := by simp [jsGet, hval]
            have : cancelPending w uri = w := by simp [cancelPending, hj]
            rw [this, hval]
            simp
        | req i =>
            have hj : jsGet w.data uri = .req i := by simp [jsGet, hval]
            have : cancelPending w uri =
                { w with cancelled := i :: w.cancelled,
                         data := TernarySearchTree.delete w.data uri } := by
              simp [cancelPending, hj]
            rw [this]
            simp [TernarySearchTree.get_delete_self]
  · intro id data hg
    have hr : TernarySearchTree.get w.data uri = some (.req id) :=
      (jsGet_req_iff _ _ _).mp hg
    refine ⟨completeOk_fires w id uri data hg, ?_⟩
    simp only [completeOk, hg, if_true]
    rw [keepItem_data, TernarySearchTree.get_set_self]

/-- Witness for C7 amended at a concrete state: a synchronous empty result
over a previously present decoration fires the notification. -/
theorem c7_store_notify_witness : (fetchData wSelfU pWit).fired = [pWit] := by
  have h := (c7_store_notify wSelfU pWit).2.1 rfl
  exact h.1

/-- C9: a non-cancellation rejection of the in-flight fetch whose request
still occupies the slot deletes the slot (the resource reverts to Unknown),
leaves every other resource untouched, stores nothing that depends on the
error value, and the next getOrRetrieve for the resource triggers a fetch
again. -/
theorem c9_error_revert (w : DecorationProviderWrapper) (id : Nat) (uri : Path)
    (e : JsError) (he : isCanceledError e = false)
    (hg : jsGet w.data uri = .req id) :
    TernarySearchTree.get (completeErr w id uri e).data uri = none ∧
    (∀ k, k ≠ uri → TernarySearchTree.get (completeErr w id uri e).data k =
      TernarySearchTree.get w.data k) ∧
    (∀ e2, isCanceledError e2 = false →
      completeErr w id uri e2 = completeErr w id uri e) ∧
    (∀ ic, (getOrRetrieve (completeErr w id uri e) uri ic).fetched = true) := by
  have hstep : completeErr w id uri e =
      { w with data := TernarySearchTree.delete w.data uri } := by
    simp [completeErr, he, hg]
  refine ⟨?_, ?_, ?_, ?_⟩
  · rw [hstep]
    exact TernarySearchTree.get_delete_self _ _
  · intro k hk
    rw [hstep]
    exact TernarySearchTree.get_delete_ne _ _ _ hk
  · intro e2 he2
    rw [hstep]
    simp [completeErr, he2, hg]
  · intro ic
    apply getOrRetrieve_fetched_of_unknown
    rw [hstep]
    simp [jsGet, TernarySearchTree.get_delete_self]

/-- Witness for C9 at a concrete state: a TypeError rejection of pending
request 0 for pWit removes the slot. -/
theorem c9_error_revert_witness :
    TernarySearchTree.get (completeErr wexC1 0 pWit
      { isError := true, name := "TypeError", message := "boom" }).data pWit = none := by
  exact (c9_error_revert wexC1 0 pWit _ (by decide) (by decide)).1

end TheiaDecorations
namespace TheiaDecorations

/-- C2: a resolved present decoration cached for the queried resource itself
is always in the getDecoration result, for any live wrapper of the service;
a resolved present decoration cached for a strict descendant is in the
result when includeChildren is true and its bubble flag is set; and for a
wrapper holding only a strict-descendant decoration, the result is empty
when includeChildren is false, and also empty when the bubble flag is
cleared. -/
theorem c2_bubble_semantics :
    (∀ (s : DecorationsServiceImpl) (uri : Path) (ic : Bool) (wid : Nat)
      (w : DecorationProviderWrapper) (d : Decoration),
      wid ∈ s.sdata →
      TernarySearchTree.get s.heap wid = some w →
      TernarySearchTree.get w.data uri = some (.deco d) →
      d ∈ (getDecoration s uri ic).result) ∧
    (∀ (s : DecorationsServiceImpl) (uri : Path) (wid : Nat)
      (w : DecorationProviderWrapper) (q : Path) (d : Decoration),
      wid ∈ s.sdata →
      TernarySearchTree.get s.heap wid = some w →
      TernarySearchTree.get w.data q = some (.deco d) →
      isStrictDesc q uri = true →
      d.bubble = true →
      d ∈ (getDecoration s uri true).result) ∧
    (∀ (q uri : Path) (d : Decoration), isStrictDesc q uri = true →
      (getDecoration (singleWrapperService
        { provide := thenProvider, data := [(q, .deco d)], nextId := 0,
          cancelled := [] }) uri false).result = [] ∧
      (d.bubble = false →
        (getDecoration (singleWrapperService
          { provide := thenProvider, data := [(q, .deco d)], nextId := 0,
            cancelled := [] }) uri true).result = [])) := by
  refine ⟨?_, ?_, ?_⟩
  · intro s uri ic wid w d hwid hw hd
    exact foldl_self_mem uri ic s.sdata _ wid w d hwid hw hd
  · intro s uri wid w q d hwid hw hq hsd hb
    exact foldl_child_mem uri s.sdata _ wid w q d hwid hw hq hsd hb
  · intro q uri d hsd
    have hne : q ≠ uri := isStrictDesc_ne q uri hsd
    set w0 : DecorationProviderWrapper :=
      { provide := thenProvider, data := [(q, .deco d)], nextId := 0,
        cancelled := [] } with hw0
    have hget_uri : TernarySearchTree.get w0.data uri = none := by
      simp [hw0, TernarySearchTree.get, hne]
    have hj : jsGet w0.data uri = .undefined := by simp [jsGet, hget_uri]
    have hheap : TernarySearchTree.get (singleWrapperService w0).heap 0 = some w0 := rfl
    have hfold : ∀ ic, getDecoration (singleWrapperService w0) uri ic =
        getDecorationStep uri ic
          { s := singleWrapperService w0, result := [], fetched := [] } 0 := by
      intro ic
      rfl
    constructor
    · rw [hfold false, getDecorationStep_result _ _ _ _ w0 hheap,
        getOrRetrieve_emits_noChildren w0 uri hj (Or.inl rfl)]
      rfl
    · intro hb
      have hdata : (fetchData w0 uri).w.data =
          [(q, CacheVal.deco d), (uri, CacheVal.req 0)] := by
        simp [fetchData, cancelPending, hj, hw0, TernarySearchTree.set, hne,
          thenProvider]
      rw [hfold true, getDecorationStep_result _ _ _ _ w0 hheap,
        getOrRetrieve_emits_childOnly w0 uri hj rfl, hdata]
      have hfs : TernarySearchTree.findSuperstr
          [(q, CacheVal.deco d), (uri, CacheVal.req 0)] uri = [(q, CacheVal.deco d)] := by
        simp [TernarySearchTree.findSuperstr, hsd, isStrictDesc_self_false]
      rw [hfs]
      simp [pushFilter, hb]

/-- Witness for C2 at concrete states: the self decoration of pWit is in the
result, and the bubbling descendant decoration at pChild is in the result of
the includeChildren query for pWit. -/
theorem c2_bubble_semantics_witness :
    dWit ∈ (getDecoration (singleWrapperService wSelf) pWit false).result ∧
    dWit ∈ (getDecoration (singleWrapperService wChild) pWit true).result := by
  constructor
  · exact c2_bubble_semantics.1 (singleWrapperService wSelf) pWit false 0 wSelf dWit
      (by simp [singleWrapperService]) rfl (by decide)
  · exact c2_bubble_semantics.2.1 (singleWrapperService wChild) pWit 0 wChild pChild
      dWit (by simp [singleWrapperService]) rfl (by decide) (by decide) (by decide)

/-- Counterexample to C8 as stated: with a synchronous provider, the very
first getDecoration call for a never-queried resource returns the provider's
decoration, not an empty list (the wrapper's cache is empty beforehand, as
the first conjunct shows). -/
theorem c8_counterexample :
    ((TernarySearchTree.get svcSync.heap 0).map DecorationProviderWrapper.data) =
      some [] ∧
    (getDecoration svcSync pWit false).result = [dWit] := by
  exact ⟨by decide, by decide⟩

/-- C8 amended: for a resource with no cache entry in any live wrapper,
getDecoration triggers exactly one provider fetch per registered provider;
the returned list is empty provided every provider answers asynchronously or
synchronously empty and no wrapper holds a cached strict descendant -
a synchronous present result is returned immediately instead. -/
theorem c8_first_query (s : DecorationsServiceImpl) (uri : Path)
    (hnd : s.sdata.Nodup)
    (hall : ∀ wid ∈ s.sdata, ∃ w, TernarySearchTree.get s.heap wid = some w ∧
      TernarySearchTree.get w.data uri = none) :
    (∀ ic, (getDecoration s uri ic).fetched =
      List.replicate s.sdata.length true) ∧
    ((∀ wid ∈ s.sdata, ∀ w, TernarySearchTree.get s.heap wid = some w →
        (w.provide uri = .thenable ∨ w.provide uri = .syncEmpty) ∧
        TernarySearchTree.findSuperstr w.data uri = []) →
      ∀ ic, (getDecoration s uri ic).result = []) := by
  constructor
  · intro ic
    have h := foldl_fetched uri ic s.sdata
      { s := s, result := [], fetched := [] } hnd hall
    simpa using h
  · intro hstrong ic
    have h := foldl_result_empty uri ic s.sdata
      { s := s, result := [], fetched := [] } hnd
      (by
        intro wid hwid
        obtain ⟨w, hw, hnone⟩ := hall wid hwid
        obtain ⟨hp, hfs⟩ := hstrong wid hwid w hw
        exact ⟨w, hw, hnone, hp, hfs⟩)
    simpa using h

/-- Witness for C8 amended at a concrete state: one asynchronous provider,
never-queried resource: exactly one fetch, empty result. -/
theorem c8_first_query_witness :
    (getDecoration svcAsync pWit false).fetched = List.replicate 1 true ∧
    (getDecoration svcAsync pWit false).result = [] := by
  have hsd : svcAsync.sdata = [0] := rfl
  have hget : TernarySearchTree.get svcAsync.heap 0 = some winit := rfl
  have hall : ∀ wid ∈ svcAsync.sdata, ∃ w,
      TernarySearchTree.get svcAsync.heap wid = some w ∧
      TernarySearchTree.get w.data pWit = none := by
    intro wid hwid
    rw [hsd] at hwid
    have hwid0 : wid = 0 := List.mem_singleton.mp hwid
    subst hwid0
    exact ⟨winit, hget, rfl⟩
  have h := c8_first_query svcAsync pWit
    (by rw [hsd]; exact List.nodup_singleton 0) hall
  refine ⟨h.1 false, ?_⟩
  refine h.2 ?_ false
  intro wid hwid w hw
  rw [hsd] at hwid
  have hwid0 : wid = 0 := List.mem_singleton.mp hwid
  subst hwid0
  rw [hget] at hw
  have hww : winit = w := Option.some.inj hw
  subst hww
  exact ⟨Or.inl rfl, rfl⟩

end TheiaDecorations
namespace TheiaDecorations

/-- C3 refuted on the code: the store-and-notify step after a fetch result
lands (and likewise the synchronous store inside getDecoration) never
appends anything to onDidChangeDecorations - its per-resource notification
goes to the private delayed emitter, which nothing subscribes to.  At the
concrete failing input, completing wrapper 0's pending fetch of pWit with a
present decoration grows only the delayed log. -/
theorem c3_store_notify_not_delivered :
    (∀ (s : DecorationsServiceImpl) (wid id : Nat) (uri : Path)
      (data : Option Decoration),
      (serviceCompleteOk s wid id uri data).publicLog = s.publicLog) ∧
    (∀ (s : DecorationsServiceImpl) (uri : Path) (ic : Bool),
      (getDecoration s uri ic).s.publicLog = s.publicLog) ∧
    (serviceCompleteOk svcAsyncQ 0 0 pWit (some dWit)).delayedLog =
      svcAsyncQ.delayedLog ++ [pWit] ∧
    (serviceCompleteOk svcAsyncQ 0 0 pWit (some dWit)).publicLog =
      [AggEvent.all] := by
  refine ⟨?_, ?_, ?_, ?_⟩
  · intro s wid id uri data
    exact serviceCompleteOk_publicLog s wid id uri data
  · intro s uri ic
    exact getDecoration_publicLog s uri ic
  · decide
  · decide

/-- Counterexample to C5 as stated: with two registered providers, calling
the first registration's disposal handle a second time removes the other
provider from the live set and fires one more public event - observable
effects beyond the first call. -/
theorem c5_counterexample :
    svcTwoD1.sdata = [1] ∧ svcTwoD2.sdata = [] ∧
    svcTwoD2.publicLog.length = svcTwoD1.publicLog.length + 1 := by
  exact ⟨by decide, by decide, by decide⟩

/-- C5 amended: a disposal call for a wrapper that is no longer in the live
set (the second call of a handle) re-runs the body: indexOf yields -1, so
splice(-1, 1) drops the last element of the live set, and one more scoped
event is fired, built from the wrapper's current (already cleared) cache. -/
theorem c5_second_dispose (s : DecorationsServiceImpl) (wid : Nat)
    (h : jsIndexOf s.sdata wid = -1) :
    (disposeRegistration s wid).sdata = s.sdata.dropLast ∧
    (disposeRegistration s wid).publicLog = s.publicLog ++
      [AggEvent.scoped (((TernarySearchTree.get s.heap wid).map
        DecorationProviderWrapper.data).getD [])] := by
  constructor
  · rw [disposeRegistration_sdata, h]
    exact jsSplice1_neg_one s.sdata
  · cases hw : TernarySearchTree.get s.heap wid <;>
      simp [disposeRegistration, hw]

/-- Witness for C5 amended at a concrete state: the second disposal of
registration 0 drops the last live wrapper (registration 1). -/
theorem c5_second_dispose_witness :
    (disposeRegistration svcTwoD1 0).sdata = List.dropLast [1] := by
  exact (c5_second_dispose svcTwoD1 0 (by decide)).1

/-- Counterexample to C6 as stated: the provider resolved pWit with an empty
decoration (the cache stores undefined), yet on unregistration the emitted
event's predicate returns false for pWit, because knowsAbout reads the
stored undefined as falsy. -/
theorem c6_counterexample :
    ((TernarySearchTree.get svcEmptyQueried.heap 0).map
      DecorationProviderWrapper.data) = some [(pWit, CacheVal.empty)] ∧
    (disposeRegistration svcEmptyQueried 0).publicLog =
      svcEmptyQueried.publicLog ++ [AggEvent.scoped [(pWit, CacheVal.empty)]] ∧
    AggEvent.affectsResource (AggEvent.scoped [(pWit, CacheVal.empty)]) pWit =
      false := by
  exact ⟨by decide, by decide, by decide⟩

/-- C6 amended: unregistering a live wrapper appends exactly one event,
scoped by knowsAbout over the wrapper's cache at disposal time; the
predicate is true iff the slot read for the resource is truthy (a present
decoration or a pending request - not a stored empty result) or some cache
entry's key is a strict descendant of the resource. -/
theorem c6_unregister_event (s : DecorationsServiceImpl) (wid : Nat)
    (w : DecorationProviderWrapper)
    (hw : TernarySearchTree.get s.heap wid = some w) :
    (disposeRegistration s wid).publicLog = s.publicLog ++
      [AggEvent.scoped w.data] ∧
    (∀ uri, (AggEvent.scoped w.data).affectsResource uri =
      ((jsGet w.data uri).truthy ||
        w.data.any (fun e => isStrictDesc e.1 uri))) := by
  constructor
  · simp [disposeRegistration, hw]
  · intro uri
    show knowsAbout w.data uri = _
    rw [knowsAbout_eq]

/-- Witness for C6 amended at a concrete state: disposing the single live
wrapper whose cache holds a decoration at pChild appends the scoped event,
whose predicate on pWit is the knowsAbout characterization. -/
theorem c6_unregister_event_witness :
    (disposeRegistration (singleWrapperService wChild) 0).publicLog =
      (singleWrapperService wChild).publicLog ++ [AggEvent.scoped wChild.data] ∧
    AggEvent.affectsResource (AggEvent.scoped wChild.data) pWit =
      ((jsGet wChild.data pWit).truthy ||
        wChild.data.any (fun e => isStrictDesc e.1 pWit)) := by
  have h := c6_unregister_event (singleWrapperService wChild) 0 wChild rfl
  exact ⟨h.1, h.2 pWit⟩

end TheiaDecorations
namespace TheiaDecorations

/-- C4: starting from an idle queue (no timer, empty maps), any same-turn
sequence of enqueues and cancellations containing at least one enqueue
schedules exactly one timeout, performs no batched call during the turn,
and when the single timeout fires it issues exactly one batched call
carrying exactly the requests still live at that moment, handing the live
maps over wholesale and resetting them for the next turn. -/
theorem c4_coalescing (q : DecorationRequestsQueue) (ops : List QEv)
    (ht : q.timerSet = false) (hreq : q.requests = []) (hres : q.resolvers = [])
    (hturn : ∀ e ∈ ops, e.isTurnOp = true) (hex : ∃ u, QEv.enq u ∈ ops) :
    (qrun q ops).scheduleCount = q.scheduleCount + 1 ∧
    (qrun q ops).batchCalls = q.batchCalls ∧
    (qrun q ops).inflight = q.inflight ∧
    (qstep (qrun q ops) .fire).batchCalls =
      q.batchCalls ++ [(qrun q ops).requests] ∧
    (qstep (qrun q ops) .fire).inflight =
      q.inflight ++ [((qrun q ops).requests, (qrun q ops).resolvers)] ∧
    (qstep (qrun q ops) .fire).requests = [] ∧
    (qstep (qrun q ops) .fire).resolvers = [] ∧
    (qstep (qrun q ops) .fire).timerSet = false := by
  obtain ⟨h1, h2, h3, h4, h5⟩ := qrun_turn ops q ht hturn hex
  obtain ⟨f1, f2, f3, f4, f5⟩ := qfire_spec (qrun q ops) h1
  refine ⟨h2, h3, h4, ?_, ?_, f3, f4, f5⟩
  · rw [f1, h3]
  · rw [f2, h4]

/-- Witness for C4 at concrete inputs: three enqueues in one turn produce
one scheduled flush whose single batched call carries all three; cancelling
the second before the flush leaves a single batched call carrying the
remaining two. -/
theorem c4_coalescing_witness :
    (qstep (qrun emptyQueue [QEv.enq pWit, QEv.enq pChild, QEv.enq pOther])
      .fire).batchCalls = [[(1, pWit), (2, pChild), (3, pOther)]] ∧
    (qrun emptyQueue [QEv.enq pWit, QEv.enq pChild, QEv.enq pOther]).scheduleCount
      = 1 ∧
    (qstep (qrun emptyQueue
      [QEv.enq pWit, QEv.enq pChild, QEv.enq pOther, QEv.cancel 2])
      .fire).batchCalls = [[(1, pWit), (3, pOther)]] ∧
    (qrun emptyQueue
      [QEv.enq pWit, QEv.enq pChild, QEv.enq pOther, QEv.cancel 2]).scheduleCount
      = 1 := by
  have hA := c4_coalescing emptyQueue [QEv.enq pWit, QEv.enq pChild, QEv.enq pOther]
    rfl rfl rfl (by decide) ⟨pWit, by simp⟩
  have hB := c4_coalescing emptyQueue
    [QEv.enq pWit, QEv.enq pChild, QEv.enq pOther, QEv.cancel 2]
    rfl rfl rfl (by decide) ⟨pWit, by simp⟩
  refine ⟨?_, by simpa using hA.1, ?_, by simpa using hB.1⟩
  · rw [hA.2.2.2.1]
    decide
  · rw [hB.2.2.2.1]
    decide

/-- Counterexample to C10 as stated: the request is enqueued, the flush
fires, the cancellation token fires before the batched call completes - and
the waiter is still resolved with its entry of the result, because the
cancellation handler deleted only from the fresh maps while the in-flight
batch kept its captured resolver (middle conjunct). -/
theorem c10_counterexample :
    qCancelLate.inflight = [([(1, pWit)], [1])] ∧
    qCancelLate.resolvers = [] ∧
    (qstep qCancelLate (.complete (fun _ => some ddWit))).delivered =
      [(1, some ddWit)] := by
  exact ⟨by decide, by decide, by decide⟩

/-- C10 amended: a request whose QDead predicate holds - in particular one
cancelled after being enqueued in the current turn, before any flush - is
never resolved by any later sequence of events; but once the flush has run,
completing the batch resolves every waiter of the captured resolver map,
cancelled or not, with its entry of the result. -/
theorem c10_cancellation :
    (∀ (q : DecorationRequestsQueue) (id : Nat) (evs : List QEv),
      QDead q id → ∀ e ∈ (qrun q evs).delivered, e.1 ≠ id) ∧
    (∀ (q : DecorationRequestsQueue) (uri : Path),
      (∀ b ∈ q.inflight, (q.idPool + 1) ∉ b.2) →
      (∀ e ∈ q.delivered, e.1 ≠ q.idPool + 1) →
      QDead (qstep (qstep q (.enq uri)) (.cancel (q.idPool + 1)))
        (q.idPool + 1)) ∧
    (∀ (q : DecorationRequestsQueue) (data : Nat → Option DecorationData)
      (b : List (Nat × Path) × List Nat)
      (rest : List (List (Nat × Path) × List Nat)),
      q.inflight = b :: rest →
      (qstep q (.complete data)).delivered =
        q.delivered ++ b.2.map (fun i => (i, data i))) := by
  refine ⟨?_, ?_, ?_⟩
  · intro q id evs h e he
    exact (qdead_run q id evs h).2.2.2.1 e he
  · intro q uri hf hd
    exact qdead_after_cancel q uri hf hd
  · intro q data b rest h
    exact qcomplete_spec q data b rest h

/-- Witness for C10 amended at a concrete state: enqueue then cancel before
the flush makes request 1 dead, and no later flush or completion delivers a
result for it. -/
theorem c10_cancellation_witness :
    QDead qCancelEarly 1 ∧
    ((qrun qCancelEarly
      [QEv.fire, QEv.complete (fun _ => some ddWit)]).delivered.all
        (fun e => decide (e.1 ≠ 1))) = true := by
  have hdead : QDead qCancelEarly 1 :=
    c10_cancellation.2.1 emptyQueue pWit (by simp [emptyQueue]) (by simp [emptyQueue])
  refine ⟨hdead, ?_⟩
  rw [List.all_eq_true]
  intro e he
  simpa using c10_cancellation.1 qCancelEarly 1
    [QEv.fire, QEv.complete (fun _ => some ddWit)] hdead e he

end TheiaDecorations
